import Mathlib

/-!
Verification of the CMMC test-bank extraction and EPUB export scripts.

The development shallowly embeds, over `List Char`:

* `Archive/scripts/extract_cmmc_questions_baseline.py` (namespace `Baseline`):
  `clean_explanation` and `parse_questions`;
* `Archive/scripts/extract_cmmc_questions_fixed.py` (namespace `Fixed`):
  `clean_explanation` and `parse_questions`;
* `Archive/scripts/export_rapid_memory_epub.py` (namespace `Epub`):
  `_slugify`, `_as_paragraphs`, `html.escape` and `build_epub`.

Python regular-expression calls are embedded by compiling each concrete
pattern to a deterministic matcher.  For every pattern used by the scripts
the greedy/lazy backtracking collapses to a deterministic scan because the
adjacent character classes are disjoint (e.g. in `\s*-` no whitespace
character is a `-`, so the greedy `\s*` takes the maximal run and never
backtracks); lazy subpatterns (`.*?`) become a scan for the first position
where the continuation or lookahead matches.  `re.sub`/`re.search` scan the
start positions left to right, non-overlapping, exactly as CPython does.
Character classes (`\s`, `\d`, `\w`) are modelled on their ASCII plus common
Unicode-whitespace fragment.
-/

namespace CmmcSim

/-- Whitespace as matched by Python `\s` (and stripped by `str.strip()`) on
`str` values: the six ASCII control characters plus the common Unicode
whitespace code points. -/
def isPySpace (c : Char) : Bool :=
  c == ' ' || c == '\t' || c == '\n' || c == '\u000b' || c == '\u000c' || c == '\r' ||
  c == '\u001c' || c == '\u001d' || c == '\u001e' || c == '\u001f' || c == '\u0085' ||
  c == '\u00a0' || c == '\u1680' || ('\u2000' ≤ c && c ≤ '\u200a') ||
  c == '\u2028' || c == '\u2029' || c == '\u202f' || c == '\u205f' || c == '\u3000'

/-- ASCII decimal digit, the fragment of Python `\d` exercised by the data. -/
def isDigitA (c : Char) : Bool := '0' ≤ c && c ≤ '9'

/-- ASCII word character, the fragment of Python `\w` used for `\b`. -/
def isWordChar (c : Char) : Bool :=
  isDigitA c || ('a' ≤ c && c ≤ 'z') || ('A' ≤ c && c ≤ 'Z') || c == '_'

/-- ASCII lowercasing, for the case-insensitive `(?i)` patterns. -/
def asciiLower (c : Char) : Char :=
  if 'A' ≤ c && c ≤ 'Z' then Char.ofNat (c.toNat + 32) else c

/-- Remove trailing Python whitespace (right half of `str.strip()`). -/
def rstripWs : List Char → List Char
  | [] => []
  | c :: rest =>
    match rstripWs rest with
    | [] => if isPySpace c then [] else [c]
    | r => c :: r

/-- Python `str.strip()`: drop leading and trailing whitespace. -/
def pyStrip (l : List Char) : List Char := rstripWs (l.dropWhile isPySpace)

/-- Python slice `s[a:b]` (for `0 ≤ a ≤ b`). -/
def sliceL (s : List Char) (a b : Nat) : List Char := (s.take b).drop a

/-- Value of `int()` on a digit string. -/
def natOfDigits (ds : List Char) : Nat :=
  ds.foldl (fun acc c => 10 * acc + (c.toNat - '0'.toNat)) 0

/-- Consume a case-sensitive literal. -/
def dropLit (lit t : List Char) : Option (List Char) :=
  if lit.isPrefixOf t then some (t.drop lit.length) else none

/-- Case-insensitive literal test (`lit` is stored lowercased). -/
def ciLitHead : List Char → List Char → Bool
  | [], _ => true
  | _ :: _, [] => false
  | p :: ps, c :: cs => (asciiLower c == p) && ciLitHead ps cs

/-- Consume a case-insensitive literal. -/
def dropLitCi (lit t : List Char) : Option (List Char) :=
  if ciLitHead lit t then some (t.drop lit.length) else none

/-- A matcher receives the whole subject and a start position and returns
the data of the unique match attempt at that position (for the embedded
patterns the backtracking is deterministic, see the header comment). -/
abbrev Matcher (α : Type) := List Char → Nat → Option α

/-- Scan start positions `i, i+1, …` (Python `re` left-to-right scan). -/
def searchAux {α : Type} (m : Matcher α) (s : List Char) : Nat → Nat → Option (Nat × α)
  | _, 0 => none
  | i, fuel+1 =>
    match m s i with
    | some a => some (i, a)
    | none => searchAux m s (i+1) fuel

/-- Python `re.search`: first start position (0 … length) with a match. -/
def reSearch {α : Type} (m : Matcher α) (s : List Char) : Option (Nat × α) :=
  searchAux m s 0 (s.length + 1)

/-- Replacement engine of Python `re.sub`: scan the original string left to
right; on a match of length `len` at `i` emit `repl` and continue at
`i+len`, otherwise emit the character at `i` and continue at `i+1`.  All
embedded patterns only produce matches of positive length. -/
def subAux (m : Matcher Nat) (repl : List Char) (s : List Char) : Nat → Nat → List Char
  | _, 0 => []
  | i, fuel+1 =>
    if h : i < s.length then
      match m s i with
      | some len => repl ++ subAux m repl s (i + len) fuel
      | none => s.get ⟨i, h⟩ :: subAux m repl s (i + 1) fuel
    else []

/-- Python `re.sub(pattern, repl, s)` for the embedded matchers. -/
def reSub (m : Matcher Nat) (repl : List Char) (s : List Char) : List Char :=
  subAux m repl s 0 (s.length + 1)

/-- Matcher of a plain case-sensitive literal pattern. -/
def mLit (lit : List Char) : Matcher Nat := fun s i =>
  if lit.isPrefixOf (s.drop i) then some lit.length else none

/-- Lazy `.*?\?` (no DOTALL): shortest run of non-newline characters up to a
`?`, which is included in the match; fails if a newline or the end comes
first. -/
def lazyQm (t : List Char) : Option Nat :=
  let pre := t.takeWhile (fun c => !(c == '?') && !(c == '\n'))
  match t.drop pre.length with
  | '?' :: _ => some (pre.length + 1)
  | _ => none

/-- Matcher of `(?i)LIT.*?\?` (no DOTALL). -/
def mQm (lit : List Char) : Matcher Nat := fun s i =>
  match dropLitCi lit (s.drop i) with
  | none => none
  | some t => (lazyQm t).map (fun k => lit.length + k)

/-- Matcher of `(?i)LIT.*?$` with MULTILINE: from the literal to the end of
the line (the newline itself is not consumed). -/
def mEol (lit : List Char) : Matcher Nat := fun s i =>
  match dropLitCi lit (s.drop i) with
  | none => none
  | some t => some (lit.length + (t.takeWhile (fun c => !(c == '\n'))).length)

/-- Start-of-line test for MULTILINE `^`. -/
def bolAt (s : List Char) (i : Nat) : Bool :=
  i == 0 || s.get? (i - 1) == some '\n'

/-- Matcher of `^\d+ of \d+$` with MULTILINE. -/
def mPageLine : Matcher Nat := fun s i =>
  if bolAt s i then
    let t := s.drop i
    let d1 := (t.takeWhile isDigitA).length
    if d1 == 0 then none else
    match dropLit (" of ".data) (t.drop d1) with
    | none => none
    | some t2 =>
      let d2 := (t2.takeWhile isDigitA).length
      if d2 == 0 then none else
      match t2.drop d2 with
      | [] => some (d1 + 4 + d2)
      | '\n' :: _ => some (d1 + 4 + d2)
      | _ => none
  else none

/-- Matcher of `\b\d+\s+of\s+\d+\b` (the extra page-marker scrub of the
fixed variant). -/
def mWbNofM : Matcher Nat := fun s i =>
  let okL := i == 0 || (match s.get? (i - 1) with
    | some c => !isWordChar c
    | none => true)
  if okL then
    let t := s.drop i
    let d1 := (t.takeWhile isDigitA).length
    if d1 == 0 then none else
    let t1 := t.drop d1
    let w1 := (t1.takeWhile isPySpace).length
    if w1 == 0 then none else
    match dropLit ("of".data) (t1.drop w1) with
    | none => none
    | some t2 =>
      let w2 := (t2.takeWhile isPySpace).length
      if w2 == 0 then none else
      let d2 := ((t2.drop w2).takeWhile isDigitA).length
      if d2 == 0 then none else
      match (t2.drop w2).drop d2 with
      | [] => some (d1 + w1 + 2 + w2 + d2)
      | c :: _ => if isWordChar c then none else some (d1 + w1 + 2 + w2 + d2)
  else none

/-- Matcher of `\n?\d+ of \d+\n?` (the page-marker pre-clean in
`parse_questions`; replaced by a newline). -/
def mPageMark : Matcher Nat := fun s i =>
  let t := s.drop i
  let pick := match t with
    | '\n' :: rest =>
      match rest with
      | c :: _ => if isDigitA c then (1, rest) else (0, t)
      | [] => (0, t)
    | _ => (0, t)
  let n1 := pick.1
  let t0 := pick.2
  let d1 := (t0.takeWhile isDigitA).length
  if d1 == 0 then none else
  match dropLit (" of ".data) (t0.drop d1) with
  | none => none
  | some t2 =>
    let d2 := (t2.takeWhile isDigitA).length
    if d2 == 0 then none else
    match t2.drop d2 with
    | '\n' :: _ => some (n1 + d1 + 4 + d2 + 1)
    | _ => some (n1 + d1 + 4 + d2)

mutual
/-- Collapse runs of newlines to a single space: `re.sub(r'\n+', ' ', s)`. -/
def collNl : List Char → List Char
  | [] => []
  | c :: rest => if c == '\n' then ' ' :: collNlSkip rest else c :: collNl rest
def collNlSkip : List Char → List Char
  | [] => []
  | c :: rest => if c == '\n' then collNlSkip rest else c :: collNl rest
end

mutual
/-- Collapse runs of whitespace to a single space: `re.sub(r'\s+', ' ', s)`. -/
def collWs : List Char → List Char
  | [] => []
  | c :: rest => if isPySpace c then ' ' :: collWsSkip rest else c :: collWs rest
def collWsSkip : List Char → List Char
  | [] => []
  | c :: rest => if isPySpace c then collWsSkip rest else c :: collWs rest
end

/-- Boilerplate literals of `clean_explanation` (case-insensitive ones are
stored lowercased). -/
def whyCorrectLit : List Char := "why the correct answer is".data

def whyNotLit : List Char := "why not the other options".data

def relevantLit : List Char := "relevant cmmc 2.0 references".data

def officialLit : List Char := "official references from cmmc 2.0".data

def finalVerifLit : List Char := "final verification and conclusion".data

def finalAnswerLit : List Char := "final answer:#".data

def leadersLit : List Char := "Leaders in it certification".data

def practiceLit : List Char := "Practice Exam".data

def cyberAbLit : List Char := "Cyber AB - CMMC-CCP".data

/-- The nine boilerplate removals shared verbatim by both variants of
`clean_explanation` (baseline lines 15-24, fixed lines 15-24). -/
def cleanCommonPre (x : List Char) : List Char :=
  let x := reSub (mQm whyCorrectLit) [] x
  let x := reSub (mQm whyNotLit) [] x
  let x := reSub (mEol relevantLit) [] x
  let x := reSub (mEol officialLit) [] x
  let x := reSub (mEol finalVerifLit) [] x
  let x := reSub (mEol finalAnswerLit) [] x
  let x := reSub (mLit leadersLit) [] x
  let x := reSub (mLit practiceLit) [] x
  reSub (mLit cyberAbLit) [] x

namespace Baseline

/-- `clean_explanation` of `extract_cmmc_questions_baseline.py` (lines
13-29): boilerplate removals, the `^\d+ of \d+$` line scrub, newline and
whitespace collapsing, final strip. -/
def clean_explanation (x : List Char) : List Char :=
  pyStrip (collWs (collNl (reSub mPageLine [] (cleanCommonPre x))))

end Baseline

namespace Fixed

/-- `clean_explanation` of `extract_cmmc_questions_fixed.py` (lines 13-31):
as the baseline plus the aggressive `\b\d+\s+of\s+\d+\b` scrub inserted
before the `^\d+ of \d+$` one. -/
def clean_explanation (x : List Char) : List Char :=
  pyStrip (collWs (collNl (reSub mPageLine [] (reSub mWbNofM [] (cleanCommonPre x)))))

end Fixed

/-! ## Question parsing (`parse_questions`, both variants)

Both scripts pre-clean the text with `re.sub(r'\n?\d+ of \d+\n?', '\n', …)`,
locate all `Question\s*#:\s*(\d+)\s*-\s*\[(.*?)\]` headers with `finditer`
and slice the text between consecutive headers into per-question content
blocks. -/

/-- One choice entry of a question record. -/
structure ChoiceRec where
  id : List Char
  text : List Char
  correct : Bool
deriving DecidableEq, Repr

/-- A question record as emitted by `parse_questions` (and serialised to
`questions.json`). -/
structure QuestionRecord where
  id : List Char
  domain : List Char
  question : List Char
  choices : List ChoiceRec
  explanation : List Char
  reference : List Char
deriving DecidableEq, Repr

/-- Page-marker pre-clean shared by both variants (baseline line 44, fixed
line 44). -/
def preClean (text : List Char) : List Char := reSub mPageMark ['\n'] text

/-- A header match of `Question\s*#:\s*(\d+)\s*-\s*\[(.*?)\]`. -/
structure Header where
  num : Nat
  domRaw : List Char
  startPos : Nat
  endPos : Nat
deriving DecidableEq, Repr

/-- Matcher of the question-header pattern; returns match length, question
number and the raw domain capture.  Within the pattern every greedy piece
is deterministic (whitespace never begins `#:`, a digit, `-` or `[`), and
the lazy domain capture runs to the first `]` with no newline before it. -/
def mHeader : Matcher (Nat × Nat × List Char) := fun s i =>
  let t := s.drop i
  match dropLit ("Question".data) t with
  | none => none
  | some t1 =>
    match dropLit ("#:".data) (t1.dropWhile isPySpace) with
    | none => none
    | some t3 =>
      let t4 := t3.dropWhile isPySpace
      let ds := t4.takeWhile isDigitA
      if ds.isEmpty then none else
      match (t4.drop ds.length).dropWhile isPySpace with
      | '-' :: t7 =>
        match t7.dropWhile isPySpace with
        | '[' :: t9 =>
          let dom := t9.takeWhile (fun c => !(c == ']') && !(c == '\n'))
          match t9.drop dom.length with
          | ']' :: t10 => some (t.length - t10.length, natOfDigits ds, dom)
          | _ => none
        | _ => none
      | _ => none

/-- All header matches in order, non-overlapping (`pattern.finditer`). -/
def headersAux (s : List Char) : Nat → Nat → List Header
  | _, 0 => []
  | i, fuel+1 =>
    if s.length < i then [] else
    match mHeader s i with
    | some (len, n, dom) => ⟨n, dom, i, i + len⟩ :: headersAux s (i + len) fuel
    | none => headersAux s (i+1) fuel

/-- All question headers of the cleaned text. -/
def findHeaders (s : List Char) : List Header := headersAux s 0 (s.length + 1)

/-- Per-header content blocks: `(q_num, domain.strip(), content)` where
`content = cleaned[m.end() : next.start()].strip()` (to the end of the text
for the last header). -/
def blocksAux (s : List Char) : List Header → List (Nat × List Char × List Char)
  | [] => []
  | h :: rest =>
    let e := match rest with
      | h2 :: _ => h2.startPos
      | [] => s.length
    (h.num, pyStrip h.domRaw, pyStrip (sliceL s h.endPos e)) :: blocksAux s rest

/-- The `(q_num, domain, content)` blocks of an input text after
pre-cleaning. -/
def blocksOf (s : List Char) : List (Nat × List Char × List Char) :=
  blocksAux s (findHeaders s)

/-- Match attempt of `Answer:\s*([A-D])` against a suffix: the literal,
greedy whitespace (no letter A-D is whitespace, so no backtracking), one
letter.  Returns the letter and the match length. -/
def mAnswerAt (t : List Char) : Option (Char × Nat) :=
  match dropLit ("Answer:".data) t with
  | none => none
  | some t1 =>
    let w := (t1.takeWhile isPySpace).length
    match t1.drop w with
    | c :: _ =>
      if c == 'A' || c == 'B' || c == 'C' || c == 'D' then some (c, 7 + w + 1)
      else none
    | [] => none

/-- The same as a position matcher. -/
def mAnswer : Matcher (Char × Nat) := fun s i => mAnswerAt (s.drop i)

/-- `re.search(r'Answer:\s*([A-D])', s)`: the captured letter and the
position of `match.end()`. -/
def ansSearch (s : List Char) : Option (Char × Nat) :=
  match reSearch mAnswer s with
  | some (i, (c, len)) => some (c, i + len)
  | none => none

/-- Position of the first occurrence of a literal substring. -/
def firstIdx (pat s : List Char) : Option Nat := (reSearch (mLit pat) s).map (·.1)

/-- `re.search(r'(.*?)\s*A\.\s*(.*)', content, re.DOTALL)`: succeeds iff the
substring `A.` occurs; group 1 stripped equals the stripped text before the
first `A.` (the greedy `\s*` before `A.` only moves trailing whitespace out
of group 1), and group 2 is the text after `A.` with its maximal leading
whitespace run consumed by the greedy `\s*`. -/
def qSplit (c : List Char) : Option (List Char × List Char) :=
  match firstIdx ("A.".data) c with
  | some p => some (pyStrip (c.take p), (c.drop (p+2)).dropWhile isPySpace)
  | none => none

/-- `$` of a pattern without MULTILINE: end of subject, or just before a
newline that ends the subject. -/
def dollarAt (s : List Char) (j : Nat) : Bool :=
  j == s.length || (j + 1 == s.length && s.get? j == some '\n')

/-- Lookahead `(?=L\.\s*|$)` at a position. -/
def lookChoice (L : Char) (s : List Char) (j : Nat) : Bool :=
  [L, '.'].isPrefixOf (s.drop j) || dollarAt s j

/-- Lookahead `(?=\s*Answer:)` at a position (baseline `d_match`). -/
def lookAnsBase (s : List Char) (j : Nat) : Bool :=
  ("Answer:".data).isPrefixOf ((s.drop j).dropWhile isPySpace)

/-- Lookahead `(?=Answer:\s*|$)` at a position (fixed `d_match`). -/
def lookAnsFixed (s : List Char) (j : Nat) : Bool :=
  ("Answer:".data).isPrefixOf (s.drop j) || dollarAt s j

/-- First position `j ≥ start` where a lookahead holds (the lazy `.*?`
grows until its continuation matches). -/
def lookScan (look : List Char → Nat → Bool) (s : List Char) : Nat → Nat → Option Nat
  | _, 0 => none
  | j, fuel+1 => if look s j then some j else lookScan look s (j+1) fuel

/-- Matcher of `L\.\s*(.*?)(?=LOOK)` with DOTALL at one start position: the
two-character marker, the greedy whitespace run, then the lazy capture up
to the first position where the lookahead holds (the match attempt fails if
it never does, and `re.search` then tries later start positions). -/
def mChoiceTxt (L : Char) (look : List Char → Nat → Bool) : Matcher (List Char) :=
  fun s i =>
  match dropLit [L, '.'] (s.drop i) with
  | none => none
  | some t1 =>
    let g := i + 2 + (t1.takeWhile isPySpace).length
    match lookScan look s g (s.length + 1 - g) with
    | some j => some (pyStrip (sliceL s g j))
    | none => none

/-- A whole `re.search` for one choice: the stripped captured text. -/
def choiceTxt (L : Char) (look : List Char → Nat → Bool) (s : List Char) :
    Option (List Char) :=
  (reSearch (mChoiceTxt L look) s).map (·.2)

/-- Identifier `f'Q{q_num}'`. -/
def qIdChars (n : Nat) : List Char := 'Q' :: (Nat.repr n).data

/-- The four-entry choices list with the answer letter marked correct. -/
def mkChoices (aT bT cT dT : List Char) (L : Char) : List ChoiceRec :=
  [⟨['A'], aT, L == 'A'⟩, ⟨['B'], bT, L == 'B'⟩, ⟨['C'], cT, L == 'C'⟩,
   ⟨['D'], dT, L == 'D'⟩]

namespace Baseline

/-- Loop body of the baseline `parse_questions` (lines 51-111) for one
block: require the answer marker, require the `A.` marker (`q_match`),
extract the four choices from the full content with empty-string fallback,
slice the explanation after the answer match and clean it. -/
def parse_block (n : Nat) (dom content : List Char) : Option QuestionRecord :=
  match ansSearch content with
  | none => none
  | some (L, aEnd) =>
    match qSplit content with
    | none => none
    | some (qText, _rest) =>
      let aT := (choiceTxt 'A' (lookChoice 'B') content).getD []
      let bT := (choiceTxt 'B' (lookChoice 'C') content).getD []
      let cT := (choiceTxt 'C' (lookChoice 'D') content).getD []
      let dT := (choiceTxt 'D' lookAnsBase content).getD []
      let ex0 := pyStrip (content.drop aEnd)
      let ex := if ex0.isEmpty then [] else clean_explanation ex0
      some ⟨qIdChars n, dom, qText, mkChoices aT bT cT dT L, ex, []⟩

/-- `parse_questions` of `extract_cmmc_questions_baseline.py` (lines
40-112). -/
def parse_questions (text : List Char) : List QuestionRecord :=
  (blocksOf (preClean text)).filterMap (fun b => parse_block b.1 b.2.1 b.2.2)

end Baseline

namespace Fixed

/-- Loop body of the fixed `parse_questions` (lines 51-102) for one block:
split off the stem at the first `A.`, then search all four choices and the
answer marker in the remainder `rest`; skip the block unless all five
searches succeed. -/
def parse_block (n : Nat) (dom content : List Char) : Option QuestionRecord :=
  match qSplit content with
  | none => none
  | some (qText, rest) =>
    match choiceTxt 'A' (lookChoice 'B') rest, choiceTxt 'B' (lookChoice 'C') rest,
        choiceTxt 'C' (lookChoice 'D') rest, choiceTxt 'D' lookAnsFixed rest,
        ansSearch rest with
    | some aT, some bT, some cT, some dT, some (L, aEnd) =>
      let ex := clean_explanation (pyStrip (rest.drop aEnd))
      some ⟨qIdChars n, dom, qText, mkChoices aT bT cT dT L, ex, []⟩
    | _, _, _, _, _ => none

/-- `parse_questions` of `extract_cmmc_questions_fixed.py` (lines 42-103). -/
def parse_questions (text : List Char) : List QuestionRecord :=
  (blocksOf (preClean text)).filterMap (fun b => parse_block b.1 b.2.1 b.2.2)

end Fixed

/-! ## The EPUB builder (`export_rapid_memory_epub.py`)

The builder consumes JSON dictionaries, so each question field is modelled
as possibly absent, JSON-`null`, or a value; `build_epub` itself is partial
(a `null` domain reaches `_slugify(None)` and raises), hence it returns an
`Option`.  The generation timestamp, the fresh UUID and the icon asset are
external inputs and appear as parameters. -/

namespace Epub

/-- A field of a JSON object: missing key, `null`, or a value. -/
inductive Field (α : Type) where
  | absent : Field α
  | null : Field α
  | val : α → Field α
deriving DecidableEq, Repr

/-- Python `d.get(k, default)`: the default only replaces a missing key; an
explicit `null` comes back as `None`. -/
def Field.getD {α : Type} : Field α → α → Option α
  | .absent, d => some d
  | .null, _ => none
  | .val a, _ => some a

/-- Python `d.get(k) or ''` on a string field. -/
def getOrEmpty : Field (List Char) → List Char
  | .val s => s
  | _ => []

/-- One JSON choice entry. -/
structure ChoiceJson where
  id : Field (List Char)
  text : Field (List Char)
  correct : Field Bool
deriving DecidableEq, Repr

/-- One JSON question entry. -/
structure QJson where
  id : Field (List Char)
  domain : Field (List Char)
  question : Field (List Char)
  choices : Field (List ChoiceJson)
deriving DecidableEq, Repr

/-- The apostrophe character (spelled by code point). -/
def apos : Char := Char.ofNat 39

/-- `html.escape(s)` with the default `quote=True`: `&`, `<`, `>`, `"` and
the apostrophe become entities.  The sequential `str.replace` calls of the
CPython implementation compose to this character map because `&` is
replaced first and no entity contains a later-replaced character. -/
def escChar (c : Char) : List Char :=
  if c == '&' then "&amp;".data
  else if c == '<' then "&lt;".data
  else if c == '>' then "&gt;".data
  else if c == '"' then "&quot;".data
  else if c == apos then ['&', '#', 'x', '2', '7', ';']
  else [c]

/-- `html.escape` over a whole string. -/
def htmlEscape : List Char → List Char
  | [] => []
  | c :: rest => escChar c ++ htmlEscape rest

/-- Remove trailing characters satisfying `p` (right half of
`str.strip(chars)`). -/
def rstripP (p : Char → Bool) : List Char → List Char
  | [] => []
  | c :: rest =>
    match rstripP p rest with
    | [] => if p c then [] else [c]
    | r => c :: r

/-- `_slugify` (line 10-11): lowercase alphanumerics, everything else a
dash, then `strip('-')`.  `str.isalnum`/`str.lower` are modelled on their
ASCII fragment. -/
def slugify (s : List Char) : List Char :=
  rstripP (fun c => c == '-')
    ((s.map (fun c => if c.isAlphanum then asciiLower c else '-')).dropWhile
      (fun c => c == '-'))

/-- Python `'\n'.join(xs)`. -/
def joinNl : List (List Char) → List Char
  | [] => []
  | [x] => x
  | x :: xs => x ++ '\n' :: joinNl xs

/-- `str.replace("\n", "<br/>")`. -/
def brRepl : List Char → List Char
  | [] => []
  | c :: rest => (if c == '\n' then "<br/>".data else [c]) ++ brRepl rest

/-- Python `text.split('\n\n')`: split at non-overlapping double newlines. -/
def splitNN : List Char → List (List Char)
  | [] => [[]]
  | '\n' :: '\n' :: rest => [] :: splitNN rest
  | c :: rest =>
    match splitNN rest with
    | [] => [[c]]
    | h :: t => (c :: h) :: t

/-- `_as_paragraphs` (lines 14-20): strip, split into blank-line-separated
paragraphs, escape each, render single newlines as `<br/>`, wrap in `<p>`
and join with newlines. -/
def as_paragraphs (text : List Char) : List Char :=
  let t := pyStrip text
  if t.isEmpty then [] else
  joinNl
    ((((splitNN t).map pyStrip).filter (fun p => !p.isEmpty)).map
      (fun p => "<p>".data ++ brRepl (htmlEscape p) ++ "</p>".data))

/-- The chapter grouping key: `q.get('domain', 'Uncategorized')`. -/
def domainKeyOf (q : QJson) : Option (List Char) :=
  q.domain.getD ("Uncategorized".data)

/-- `q.get('id') or ''`. -/
def qidOf (q : QJson) : List Char := getOrEmpty q.id

/-- `(q.get('question') or '').strip()`. -/
def questionTextOf (q : QJson) : List Char := pyStrip (getOrEmpty q.question)

/-- `q.get('choices') or []`. -/
def choicesOf (q : QJson) : List ChoiceJson :=
  match q.choices with
  | .val l => l
  | _ => []

/-- The `for c in …: if c.get('correct') is True: … break` loop: the first
choice whose `correct` field is exactly `true`. -/
def correctChoiceOf (q : QJson) : Option ChoiceJson :=
  (choicesOf q).find? (fun c => c.correct == Field.val true)

/-- `(correct_choice or {}).get('text') or ''`. -/
def answerTextOf (q : QJson) : List Char :=
  match correctChoiceOf q with
  | some c => getOrEmpty c.text
  | none => []

/-- `(correct_choice or {}).get('id') or ''`. -/
def answerIdOf (q : QJson) : List Char :=
  match correctChoiceOf q with
  | some c => getOrEmpty c.id
  | none => []

/-- The rendered answer paragraph of one question block (line 116). -/
def answerLine (q : QJson) : List Char :=
  "<p class=\"answer\"><b>Answer:</b> ".data ++ htmlEscape (answerIdOf q) ++
    (if (answerTextOf q).isEmpty then [] else ": ".data) ++
    htmlEscape (answerTextOf q) ++ "</p>".data

/-- One rendered question block (lines 112-119). -/
def qBlock (q : QJson) : List Char :=
  "<div class=\"qa\">\n  <h2 id=\"".data ++ htmlEscape (qidOf q) ++ "\">".data ++
    htmlEscape (qidOf q) ++ "</h2>\n  ".data ++
    as_paragraphs (questionTextOf q) ++ "\n  ".data ++ answerLine q ++
    "\n  <hr/>\n</div>".data

/-- One rendered chapter document (lines 121-134). -/
def chapterDoc (domain : List Char) (qs : List QJson) : List Char :=
  "<?xml version=\"1.0\" encoding=\"utf-8\"?>\n<!DOCTYPE html>\n<html xmlns=\"http://www.w3.org/1999/xhtml\" xml:lang=\"en\">\n<head>\n  <title>".data ++
    htmlEscape domain ++
    "</title>\n  <link rel=\"stylesheet\" type=\"text/css\" href=\"../styles/style.css\"/>\n</head>\n<body>\n  <p class=\"domain\">".data ++
    htmlEscape domain ++ "</p>\n  <h1>".data ++ htmlEscape domain ++ "</h1>\n".data ++
    (joinNl (qs.map qBlock)) ++ "\n</body>\n</html>\n".data

/-- One step of the `domains.setdefault(key, []).append(q)` loop over an
insertion-ordered association list. -/
def addQ (m : List (Option (List Char) × List QJson)) (q : QJson) :
    List (Option (List Char) × List QJson) :=
  let k := domainKeyOf q
  if m.any (fun p => decide (p.1 = k)) then
    m.map (fun p => if p.1 = k then (p.1, p.2 ++ [q]) else p)
  else m ++ [(k, [q])]

/-- The `domains` mapping (lines 30-32): group by domain key in first-seen
key order. -/
def groupByDomain (qs : List QJson) : List (Option (List Char) × List QJson) :=
  qs.foldl addQ []

/-- `f'{idx:02d}'`. -/
def pad2 (n : Nat) : List Char :=
  if n < 10 then '0' :: (Nat.repr n).data else (Nat.repr n).data

/-- `f'text/{idx:02d}-{slug}.xhtml'`. -/
def chapterFileName (idx : Nat) (slug : List Char) : List Char :=
  "text/".data ++ pad2 idx ++ ['-'] ++ slug ++ ".xhtml".data

/-- `f'domain{idx:02d}'`. -/
def chapterItemId (idx : Nat) : List Char := "domain".data ++ pad2 idx

/-- A chapter manifest item string (lines 93-95). -/
def chapterManifestItem (idx : Nat) (slug : List Char) : List Char :=
  "<item id=\"".data ++ chapterItemId idx ++ "\" href=\"".data ++
    chapterFileName idx slug ++
    "\" media-type=\"application/xhtml+xml\"/>".data

/-- A chapter spine item string (line 96). -/
def spineRefItem (idx : Nat) : List Char :=
  "<itemref idref=\"".data ++ chapterItemId idx ++ "\"/>".data

/-- The `domain or slug fallback` of line 36: `_slugify(domain) or 'domain'`. -/
def slugOr (d : List Char) : List Char :=
  let sl := slugify d
  if sl.isEmpty then "domain".data else sl

/-- Indexing from a start value, Python `enumerate(l, start=n)`. -/
def enumFrom {α : Type} : Nat → List α → List (Nat × α)
  | _, [] => []
  | n, a :: t => (n, a) :: enumFrom (n+1) t

/-- The fixed `container.xml` body (lines 40-47). -/
def containerXml : List Char :=
  "<?xml version=\"1.0\" encoding=\"UTF-8\"?>\n<container version=\"1.0\" xmlns=\"urn:oasis:names:tc:opendocument:xmlns:container\">\n  <rootfiles>\n    <rootfile full-path=\"OEBPS/content.opf\" media-type=\"application/oebps-package+xml\"/>\n  </rootfiles>\n</container>\n".data

/-- The fixed stylesheet body (lines 49-59; braces spelled by escape). -/
def styleCss : List Char :=
  "body \x7b font-family: serif; line-height: 1.5; \x7d\nh1, h2, h3 \x7b font-family: sans-serif; \x7d\nh1 \x7b font-size: 1.6em; margin: 0 0 0.8em 0; \x7d\nh2 \x7b font-size: 1.2em; margin: 1.2em 0 0.5em 0; \x7d\n.domain \x7b font-size: 0.9em; color: #555; margin: 0 0 0.3em 0; \x7d\n.qa \x7b margin: 0 0 1.2em 0; \x7d\n.answer \x7b margin-top: 0.3em; \x7d\n.answer b \x7b font-family: sans-serif; \x7d\nhr \x7b border: none; border-top: 1px solid #ccc; margin: 1.2em 0; \x7d\n".data

/-- The title page (lines 61-75). -/
def titleXhtmlOf (title : List Char) : List Char :=
  "<?xml version=\"1.0\" encoding=\"utf-8\"?>\n<!DOCTYPE html>\n<html xmlns=\"http://www.w3.org/1999/xhtml\" xml:lang=\"en\">\n<head>\n  <title>CMMC Rapid Memory</title>\n  <link rel=\"stylesheet\" type=\"text/css\" href=\"styles/style.css\"/>\n</head>\n<body>\n  <h1>".data ++
    htmlEscape title ++
    "</h1>\n  <p><b>Rapid Memory Mode:</b> Question → Answer</p>\n  <p>This book was generated from the CMMC CCP Test Bank JSON.</p>\n</body>\n</html>\n".data

/-- The five fixed manifest items (lines 78-84). -/
def stdManifestItems : List (List Char) :=
  ["<item id=\"nav\" href=\"nav.xhtml\" media-type=\"application/xhtml+xml\" properties=\"nav\"/>".data,
   "<item id=\"css\" href=\"styles/style.css\" media-type=\"text/css\"/>".data,
   "<item id=\"icon\" href=\"pwa-icon.svg\" media-type=\"image/svg+xml\"/>".data,
   "<item id=\"title\" href=\"text/title.xhtml\" media-type=\"application/xhtml+xml\"/>".data,
   "<item id=\"ncx\" href=\"toc.ncx\" media-type=\"application/x-dtbncx+xml\"/>".data]

/-- The title spine entry (line 85). -/
def titleSpineItem : List Char := "<itemref idref=\"title\"/>".data

/-- The navigation document (lines 136-156). -/
def navXhtmlOf (navItems : List (List Char × List Char)) : List Char :=
  "<?xml version=\"1.0\" encoding=\"utf-8\"?>\n<!DOCTYPE html>\n<html xmlns=\"http://www.w3.org/1999/xhtml\" xmlns:epub=\"http://www.idpf.org/2007/ops\" xml:lang=\"en\">\n<head>\n  <title>Table of Contents</title>\n  <link rel=\"stylesheet\" type=\"text/css\" href=\"styles/style.css\"/>\n</head>\n<body>\n  <nav epub:type=\"toc\" id=\"toc\">\n    <h1>Contents</h1>\n    <ol>\n".data ++
    (navItems.map (fun e =>
      "      <li><a href=\"".data ++ htmlEscape e.2 ++ "\">".data ++
        htmlEscape e.1 ++ "</a></li>\n".data)).flatten ++
    "    </ol>\n  </nav>\n</body>\n</html>\n".data

/-- One `navPoint` of the legacy NCX map (lines 158-165). -/
def ncxNavPoint (i : Nat) (label href : List Char) : List Char :=
  "    <navPoint id=\"navPoint-".data ++ (Nat.repr i).data ++
    "\" playOrder=\"".data ++ (Nat.repr i).data ++
    "\">\n      <navLabel><text>".data ++ htmlEscape label ++
    "</text></navLabel>\n      <content src=\"".data ++ htmlEscape href ++
    "\"/>\n    </navPoint>\n".data

/-- The `toc.ncx` document (lines 167-179). -/
def tocNcxOf (bookId title : List Char)
    (navItems : List (List Char × List Char)) : List Char :=
  "<?xml version=\"1.0\" encoding=\"UTF-8\"?>\n<!DOCTYPE ncx PUBLIC \"-//NISO//DTD ncx 2005-1//EN\" \"http://www.daisy.org/z3986/2005/ncx-2005-1.dtd\">\n<ncx xmlns=\"http://www.daisy.org/z3986/2005/ncx/\" version=\"2005-1\">\n  <head>\n    <meta name=\"dtb:uid\" content=\"".data ++
    bookId ++ "\"/>\n  </head>\n  <docTitle><text>".data ++ htmlEscape title ++
    "</text></docTitle>\n  <navMap>\n".data ++
    ((enumFrom 1 navItems).map (fun e => ncxNavPoint e.1 e.2.1 e.2.2)).flatten ++
    "  </navMap>\n</ncx>\n".data

/-- The `content.opf` package document (lines 181-198). -/
def contentOpfOf (bookId title now : List Char) (manifestItems spineItems : List (List Char)) :
    List Char :=
  "<?xml version=\"1.0\" encoding=\"UTF-8\"?>\n<package xmlns=\"http://www.idpf.org/2007/opf\" unique-identifier=\"bookid\" version=\"3.0\">\n  <metadata xmlns:dc=\"http://purl.org/dc/elements/1.1/\">\n    <dc:identifier id=\"bookid\">urn:uuid:".data ++
    bookId ++ "</dc:identifier>\n    <dc:title>".data ++ htmlEscape title ++
    "</dc:title>\n    <dc:language>".data ++ htmlEscape ("en".data) ++
    "</dc:language>\n    <dc:creator>".data ++ htmlEscape ("GRCJP".data) ++
    "</dc:creator>\n    <dc:date>".data ++ htmlEscape now ++
    "</dc:date>\n  </metadata>\n  <manifest>\n".data ++
    (manifestItems.map (fun l => "    ".data ++ l ++ ['\n'])).flatten ++
    "  </manifest>\n  <spine toc=\"ncx\">\n".data ++
    (spineItems.map (fun l => "    ".data ++ l ++ ['\n'])).flatten ++
    "  </spine>\n</package>\n".data

/-- Compression method of an archive entry. -/
inductive ZMethod where
  | stored : ZMethod
  | deflated : ZMethod
deriving DecidableEq, Repr

/-- The rendered book: the builder's intermediate lists and the archive
entries `(name, method, content)` in the exact order they are written. -/
structure EpubOut where
  navItems : List (List Char × List Char)
  manifestItems : List (List Char)
  spineItems : List (List Char)
  chapters : List (List Char × List Char)
  navXhtml : List Char
  tocNcx : List Char
  contentOpf : List Char
  titleXhtml : List Char
  zipEntries : List (List Char × ZMethod × List Char)
deriving DecidableEq, Repr

/-- `build_epub` (lines 23-222).  `bookId` models `uuid.uuid4()`, `now` the
generation timestamp, `iconExists`/`iconBytes` the optional icon asset.
A `None` domain key reaches `_slugify(None)` (line 36) and raises
`TypeError`, modelled as `none`.  The `zf.write` of the icon passes no
`compress_type`, so that entry inherits the archive default `ZIP_STORED`;
every `zf.writestr` besides `mimetype` passes `ZIP_DEFLATED`. -/
def build_epub (questions : List QJson) (title bookId now : List Char)
    (iconExists : Bool) (iconBytes : List Char) : Option EpubOut :=
  let m := groupByDomain questions
  if m.any (fun p => p.1.isNone) then none else
  let m2 := m.filterMap (fun p => p.1.map (fun k => (k, p.2)))
  let enum := enumFrom 1 m2
  let navItems := enum.map (fun e => (e.2.1, chapterFileName e.1 (slugOr e.2.1)))
  let manifestItems := stdManifestItems ++
    enum.map (fun e => chapterManifestItem e.1 (slugOr e.2.1))
  let spineItems := titleSpineItem :: enum.map (fun e => spineRefItem e.1)
  let chapters := enum.map
    (fun e => (chapterFileName e.1 (slugOr e.2.1), chapterDoc e.2.1 e.2.2))
  let navX := navXhtmlOf navItems
  let ncx := tocNcxOf bookId title navItems
  let opf := contentOpfOf bookId title now manifestItems spineItems
  let titleX := titleXhtmlOf title
  some
    { navItems := navItems
      manifestItems := manifestItems
      spineItems := spineItems
      chapters := chapters
      navXhtml := navX
      tocNcx := ncx
      contentOpf := opf
      titleXhtml := titleX
      zipEntries :=
        ("mimetype".data, ZMethod.stored, "application/epub+zip".data) ::
        ("META-INF/container.xml".data, ZMethod.deflated, containerXml) ::
        ("OEBPS/content.opf".data, ZMethod.deflated, opf) ::
        ("OEBPS/toc.ncx".data, ZMethod.deflated, ncx) ::
        ("OEBPS/nav.xhtml".data, ZMethod.deflated, navX) ::
        ("OEBPS/styles/style.css".data, ZMethod.deflated, styleCss) ::
        ((if iconExists then
            [("OEBPS/pwa-icon.svg".data, ZMethod.stored, iconBytes)]
          else []) ++
          ("OEBPS/text/title.xhtml".data, ZMethod.deflated, titleX) ::
          chapters.map (fun c => ("OEBPS/".data ++ c.1, ZMethod.deflated, c.2))) }

end Epub

/-! ## Generic lemmas about the matcher engine and lists -/

theorem searchAux_eq_some {α : Type} {m : Matcher α} {s : List Char} :
    ∀ {fuel i j : Nat} {a : α}, searchAux m s i fuel = some (j, a) → m s j = some a := by
  intro fuel
  induction fuel with
  | zero => intro i j a h; simp [searchAux] at h
  | succ n ih =>
    intro i j a h
    rw [searchAux] at h
    cases hm : m s i with
    | some b =>
      rw [hm] at h
      obtain ⟨rfl, rfl⟩ := by simpa using h
      exact hm
    | none => rw [hm] at h; exact ih h

theorem searchAux_none {α : Type} {m : Matcher α} {s : List Char}
    (hall : ∀ i, m s i = none) : ∀ fuel i, searchAux m s i fuel = none := by
  intro fuel
  induction fuel with
  | zero => intro i; simp [searchAux]
  | succ n ih => intro i; simp only [searchAux, hall i]; exact ih (i+1)

theorem reSearch_eq_some {α : Type} {m : Matcher α} {s : List Char} {j : Nat} {a : α}
    (h : reSearch m s = some (j, a)) : m s j = some a :=
  searchAux_eq_some h

theorem reSearch_none {α : Type} {m : Matcher α} {s : List Char}
    (hall : ∀ i, m s i = none) : reSearch m s = none :=
  searchAux_none hall _ _

theorem subAux_eq_drop {m : Matcher Nat} {repl s : List Char}
    (hall : ∀ i, m s i = none) :
    ∀ fuel i, s.length ≤ i + fuel → subAux m repl s i fuel = s.drop i := by
  intro fuel
  induction fuel with
  | zero =>
    intro i hle
    rw [subAux, List.drop_eq_nil_of_le (by omega)]
  | succ n ih =>
    intro i hle
    rw [subAux]
    split
    · next h =>
      rw [hall i, ih (i+1) (by omega), List.drop_eq_getElem_cons h]
      rfl
    · next h => rw [List.drop_eq_nil_of_le (by omega)]

theorem reSub_id {m : Matcher Nat} {repl s : List Char}
    (hall : ∀ i, m s i = none) : reSub m repl s = s := by
  rw [reSub, subAux_eq_drop hall (s.length + 1) 0 (by omega)]
  rfl

/-- `length (filterMap f l) = length l - #(elements sent to none)`. -/
theorem length_filterMap_sub {α β : Type} (f : α → Option β) (l : List α) :
    (l.filterMap f).length = l.length - l.countP (fun x => (f x).isNone) := by
  induction l with
  | nil => rfl
  | cons x t ih =>
    have hle : t.countP (fun x => (f x).isNone) ≤ t.length := List.countP_le_length _
    cases hf : f x with
    | some b =>
      rw [List.filterMap_cons_some hf, List.countP_cons]
      simp only [hf, Option.isNone_some, List.length_cons, ih]
      simp only [Bool.false_eq_true, if_false]
      omega
    | none =>
      rw [List.filterMap_cons_none hf, List.countP_cons]
      simp only [hf, Option.isNone_none, List.length_cons, ih, if_true]
      omega

/-- Characterisation of `find?` as the first satisfying element. -/
theorem find?_first {α : Type} {p : α → Bool} :
    ∀ {l : List α} {c : α}, l.find? p = some c →
      p c = true ∧ ∃ pre post, l = pre ++ c :: post ∧ ∀ x ∈ pre, p x = false := by
  intro l
  induction l with
  | nil => intro c h; simp at h
  | cons a t ih =>
    intro c h
    by_cases hp : p a = true
    · rw [List.find?_cons_of_pos _ hp] at h
      obtain rfl := by simpa using h
      exact ⟨hp, [], t, rfl, by simp⟩
    · rw [List.find?_cons_of_neg _ (by simpa using hp)] at h
      obtain ⟨hc, pre, post, rfl, hpre⟩ := ih h
      refine ⟨hc, a :: pre, post, rfl, ?_⟩
      intro x hx
      rcases List.mem_cons.mp hx with rfl | hx
      · simpa using hp
      · exact hpre x hx

/-! ## Lemmas about the parsers -/

/-- The captured answer letter is one of A-D. -/
theorem ansSearch_letter {s : List Char} {L : Char} {e : Nat}
    (h : ansSearch s = some (L, e)) : L = 'A' ∨ L = 'B' ∨ L = 'C' ∨ L = 'D' := by
  rw [ansSearch] at h
  cases hr : reSearch mAnswer s with
  | none => rw [hr] at h; simp at h
  | some v =>
    obtain ⟨i, c, len⟩ := v
    rw [hr] at h
    obtain ⟨rfl, rfl⟩ : L = c ∧ e = i + len := by simpa using h.symm
    have hm : mAnswerAt (s.drop i) = some (L, len) := reSearch_eq_some hr
    rw [mAnswerAt] at hm
    cases hd : dropLit ("Answer:".data) (s.drop i) with
    | none => rw [hd] at hm; simp at hm
    | some t1 =>
      rw [hd] at hm
      simp only at hm
      cases ht : t1.drop ((t1.takeWhile isPySpace).length) with
      | nil => rw [ht] at hm; simp at hm
      | cons c2 t2 =>
        rw [ht] at hm
        simp only at hm
        split at hm
        · next hb =>
          obtain ⟨rfl, rfl⟩ := by simpa using hm
          have := by simpa using hb
          tauto
        · simp at hm

/-- The record shape produced for any answer letter A-D: four choices,
exactly one `correct`, and that one's id is the letter. -/
theorem mkChoices_props {aT bT cT dT : List Char} {L : Char}
    (hL : L = 'A' ∨ L = 'B' ∨ L = 'C' ∨ L = 'D') :
    (mkChoices aT bT cT dT L).length = 4 ∧
    ((mkChoices aT bT cT dT L).filter (fun ch => ch.correct)).length = 1 ∧
    ∀ ch ∈ mkChoices aT bT cT dT L, ch.correct = true → ch.id = [L] := by
  rcases hL with rfl | rfl | rfl | rfl <;>
    refine ⟨rfl, by simp [mkChoices, List.filter], ?_⟩ <;>
    · intro ch hch hc
      rcases by simpa [mkChoices] using hch with rfl | rfl | rfl | rfl <;>
        first
          | rfl
          | exact absurd hc (by simp)

/-- The ids of the four constructed choices, in order. -/
theorem mkChoices_ids (aT bT cT dT : List Char) (L : Char) :
    (mkChoices aT bT cT dT L).map ChoiceRec.id = [['A'], ['B'], ['C'], ['D']] := rfl

/-- Inversion of `qSplit`. -/
theorem qSplit_eq_some {c qT rest : List Char} (h : qSplit c = some (qT, rest)) :
    ∃ p, firstIdx ("A.".data) c = some p ∧ qT = pyStrip (c.take p) ∧
      rest = (c.drop (p+2)).dropWhile isPySpace := by
  unfold qSplit at h
  cases hp : firstIdx ("A.".data) c with
  | none => rw [hp] at h; simp at h
  | some p =>
    rw [hp] at h
    obtain ⟨rfl, rfl⟩ := by simpa using h
    exact ⟨p, rfl, rfl, rfl⟩

/-- Evaluation of the baseline loop body when its two required searches
succeed. -/
theorem parse_block_eq_baseline {n : Nat} {dom content : List Char} {L : Char}
    {e p : Nat} (h1 : ansSearch content = some (L, e))
    (h2 : firstIdx ("A.".data) content = some p) :
    Baseline.parse_block n dom content = some
      ⟨qIdChars n, dom, pyStrip (content.take p),
       mkChoices ((choiceTxt 'A' (lookChoice 'B') content).getD [])
         ((choiceTxt 'B' (lookChoice 'C') content).getD [])
         ((choiceTxt 'C' (lookChoice 'D') content).getD [])
         ((choiceTxt 'D' lookAnsBase content).getD []) L,
       (if (pyStrip (content.drop e)).isEmpty then []
        else Baseline.clean_explanation (pyStrip (content.drop e))), []⟩ := by
  simp only [Baseline.parse_block, h1, qSplit, h2]

/-- Evaluation of the fixed loop body when its five searches succeed. -/
theorem parse_block_eq_fixed {n : Nat} {dom content qT rest aT bT cT dT : List Char}
    {L : Char} {e : Nat} (h0 : qSplit content = some (qT, rest))
    (ha : choiceTxt 'A' (lookChoice 'B') rest = some aT)
    (hb : choiceTxt 'B' (lookChoice 'C') rest = some bT)
    (hc : choiceTxt 'C' (lookChoice 'D') rest = some cT)
    (hd : choiceTxt 'D' lookAnsFixed rest = some dT)
    (he : ansSearch rest = some (L, e)) :
    Fixed.parse_block n dom content = some
      ⟨qIdChars n, dom, qT, mkChoices aT bT cT dT L,
       Fixed.clean_explanation (pyStrip (rest.drop e)), []⟩ := by
  simp only [Fixed.parse_block, h0, ha, hb, hc, hd, he]

/-- C1 (amended): whenever the baseline parser's two required searches
(answer marker, `A.` marker) succeed on a block, it emits exactly one
record with four choices and exactly one `correct = true` entry whose id is
the extracted answer letter; the fixed parser gives the same guarantee
whenever its five searches on the post-stem remainder succeed. -/
theorem c1_amended_valid_block_record :
    (∀ (n : Nat) (dom content : List Char) (L : Char) (e p : Nat),
        ansSearch content = some (L, e) →
        firstIdx ("A.".data) content = some p →
        ∃ r, Baseline.parse_block n dom content = some r ∧
          r.choices.length = 4 ∧
          (r.choices.filter (fun ch => ch.correct)).length = 1 ∧
          ∀ ch ∈ r.choices, ch.correct = true → ch.id = [L]) ∧
    (∀ (n : Nat) (dom content qT rest aT bT cT dT : List Char) (L : Char) (e : Nat),
        qSplit content = some (qT, rest) →
        choiceTxt 'A' (lookChoice 'B') rest = some aT →
        choiceTxt 'B' (lookChoice 'C') rest = some bT →
        choiceTxt 'C' (lookChoice 'D') rest = some cT →
        choiceTxt 'D' lookAnsFixed rest = some dT →
        ansSearch rest = some (L, e) →
        ∃ r, Fixed.parse_block n dom content = some r ∧
          r.choices.length = 4 ∧
          (r.choices.filter (fun ch => ch.correct)).length = 1 ∧
          ∀ ch ∈ r.choices, ch.correct = true → ch.id = [L]) := by
  constructor
  · intro n dom content L e p h1 h2
    obtain ⟨len4, one1, ids⟩ := @mkChoices_props
      ((choiceTxt 'A' (lookChoice 'B') content).getD [])
      ((choiceTxt 'B' (lookChoice 'C') content).getD [])
      ((choiceTxt 'C' (lookChoice 'D') content).getD [])
      ((choiceTxt 'D' lookAnsBase content).getD []) L
      (ansSearch_letter h1)
    exact ⟨_, parse_block_eq_baseline h1 h2, len4, one1, ids⟩
  · intro n dom content qT rest aT bT cT dT L e h0 ha hb hc hd he
    obtain ⟨len4, one1, ids⟩ :=
      @mkChoices_props aT bT cT dT L (ansSearch_letter he)
    exact ⟨_, parse_block_eq_fixed h0 ha hb hc hd he, len4, one1, ids⟩

/-- C1 witness: both conditional statements instantiated on concrete
blocks. -/
theorem c1_amended_valid_block_record_witness :
    (∃ r, Baseline.parse_block 1 (['D'])
        (("S\nA. a\nB. b\nC. c\nD. d\nAnswer: B\nE").data) = some r ∧
      r.choices.length = 4 ∧
      (r.choices.filter (fun ch => ch.correct)).length = 1 ∧
      ∀ ch ∈ r.choices, ch.correct = true → ch.id = ['B']) ∧
    (∃ r, Fixed.parse_block 1 (['D'])
        (("q A. x A. a B. b C. c D. d Answer: C tail").data) = some r ∧
      r.choices.length = 4 ∧
      (r.choices.filter (fun ch => ch.correct)).length = 1 ∧
      ∀ ch ∈ r.choices, ch.correct = true → ch.id = ['C']) := by
  constructor
  · exact c1_amended_valid_block_record.1 1 (['D'])
      (("S\nA. a\nB. b\nC. c\nD. d\nAnswer: B\nE").data) 'B' 31 2
      (by decide) (by decide)
  · exact c1_amended_valid_block_record.2 1 (['D'])
      (("q A. x A. a B. b C. c D. d Answer: C tail").data)
      (['q']) (("x A. a B. b C. c D. d Answer: C tail").data)
      (['a']) (['b']) (['c']) (['d']) 'C' 31
      (by decide) (by decide) (by decide) (by decide) (by decide) (by decide)

/-- C1 counterexample: a block that is valid in the claim's sense (it has a
stem, the four lettered choice markers and an `Answer: B` marker), yet the
fixed `parse_questions` emits no record for it at all, because it searches
the choice markers inside the remainder after the first `A.`. -/
theorem c1_counterexample_fixed_drops_valid_block :
    (ansSearch (("S\nA. a\nB. b\nC. c\nD. d\nAnswer: B\nE").data)).isSome = true ∧
    (firstIdx ("A.".data) (("S\nA. a\nB. b\nC. c\nD. d\nAnswer: B\nE").data)).isSome = true ∧
    (firstIdx ("B.".data) (("S\nA. a\nB. b\nC. c\nD. d\nAnswer: B\nE").data)).isSome = true ∧
    (firstIdx ("C.".data) (("S\nA. a\nB. b\nC. c\nD. d\nAnswer: B\nE").data)).isSome = true ∧
    (firstIdx ("D.".data) (("S\nA. a\nB. b\nC. c\nD. d\nAnswer: B\nE").data)).isSome = true ∧
    Fixed.parse_questions
      (("Question #: 1 - [D]\nS\nA. a\nB. b\nC. c\nD. d\nAnswer: B\nE").data) = [] := by
  decide

/-- C10: every record emitted by the baseline parser has choice ids exactly
`A`, `B`, `C`, `D` in order, empty reference, and id `Q` followed by the
question number of the header that opened its block. -/
theorem c10_baseline_unconditional_shape :
    ∀ (text : List Char) (r : QuestionRecord),
      r ∈ Baseline.parse_questions text →
      r.choices.map ChoiceRec.id = [['A'], ['B'], ['C'], ['D']] ∧
      r.reference = [] ∧
      ∃ b ∈ blocksOf (preClean text), r.id = qIdChars b.1 := by
  intro text r hr
  unfold Baseline.parse_questions at hr
  rw [List.mem_filterMap] at hr
  obtain ⟨b, hb, hparse⟩ := hr
  cases h1 : ansSearch b.2.2 with
  | none => rw [Baseline.parse_block, h1] at hparse; simp at hparse
  | some v =>
    obtain ⟨L, e⟩ := v
    cases h2 : firstIdx ("A.".data) b.2.2 with
    | none =>
      rw [Baseline.parse_block, h1, qSplit, h2] at hparse
      simp at hparse
    | some p =>
      rw [parse_block_eq_baseline h1 h2] at hparse
      obtain rfl := by simpa using hparse
      exact ⟨mkChoices_ids _ _ _ _ _, rfl, b, hb, rfl⟩

/-- C10 witness at a concrete text and record. -/
theorem c10_baseline_unconditional_shape_witness :
    ∃ r ∈ Baseline.parse_questions
        (("Question #: 7 - [D]\nS\nA. a\nB. b\nC. c\nD. d\nAnswer: B\nE").data),
      r.choices.map ChoiceRec.id = [['A'], ['B'], ['C'], ['D']] ∧
      r.reference = [] ∧
      ∃ b ∈ blocksOf (preClean
          (("Question #: 7 - [D]\nS\nA. a\nB. b\nC. c\nD. d\nAnswer: B\nE").data)),
        r.id = qIdChars b.1 := by
  refine ⟨⟨("Q7").data, ['D'], ['S'],
    mkChoices ['a'] ['b'] ['c'] ['d'] 'B', ['E'], []⟩, ?hm, ?_⟩
  case hm => decide
  exact c10_baseline_unconditional_shape _ _ (by decide)

/-- `dropWhile` as a `drop`. -/
theorem dropWhile_eq_drop (p : Char → Bool) :
    ∀ l : List Char, l.dropWhile p = l.drop ((l.takeWhile p).length) := by
  intro l
  induction l with
  | nil => rfl
  | cons c t ih =>
    by_cases hc : p c <;> simp [List.dropWhile_cons, List.takeWhile_cons, hc, ih]

/-- If the answer pattern matches at no position, the search fails. -/
theorem ansSearch_none_of_all {s : List Char}
    (h : ∀ i, mAnswerAt (s.drop i) = none) : ansSearch s = none := by
  have hr : reSearch mAnswer s = none := reSearch_none (fun i => h i)
  rw [ansSearch, hr]

/-- The answer matcher fails on the empty suffix. -/
theorem mAnswerAt_nil : mAnswerAt [] = none := rfl

/-- Lift a decidable position-bounded check to all positions. -/
theorem noAnswerAll {content : List Char}
    (hb : (List.range (content.length + 1)).all
        (fun i => (mAnswerAt (content.drop i)).isNone) = true) :
    ∀ i, mAnswerAt (content.drop i) = none := by
  intro i
  by_cases hlt : i < content.length + 1
  · have := List.all_eq_true.mp hb i (List.mem_range.mpr hlt)
    simpa [Option.isNone_iff_eq_none] using this
  · rw [List.drop_eq_nil_of_le (by omega)]
    exact mAnswerAt_nil

/-- A block with no answer marker is skipped by the baseline parser. -/
theorem parse_block_none_of_no_answer_baseline {n : Nat} {dom content : List Char}
    (h : ∀ i, mAnswerAt (content.drop i) = none) :
    Baseline.parse_block n dom content = none := by
  simp [Baseline.parse_block, ansSearch_none_of_all h]

/-- A block with no answer marker is also skipped by the fixed parser: its
answer search runs over a suffix of the block. -/
theorem parse_block_none_of_no_answer_fixed {n : Nat} {dom content : List Char}
    (h : ∀ i, mAnswerAt (content.drop i) = none) :
    Fixed.parse_block n dom content = none := by
  cases h0 : qSplit content with
  | none => simp [Fixed.parse_block, h0]
  | some qr =>
    obtain ⟨qT, rest⟩ := qr
    obtain ⟨p, hp, hq, hrest⟩ := qSplit_eq_some h0
    have hrestdrop : ∀ j, rest.drop j =
        content.drop (p + 2 + ((content.drop (p+2)).takeWhile isPySpace).length + j) := by
      intro j
      rw [hrest, dropWhile_eq_drop, List.drop_drop, List.drop_drop]
      congr 1
      omega
    have hanswer : ansSearch rest = none :=
      ansSearch_none_of_all (fun j => by rw [hrestdrop j]; exact h _)
    simp [Fixed.parse_block, h0, hanswer]

/-- Lengths: one block per header. -/
theorem blocksAux_length (s : List Char) :
    ∀ hs : List Header, (blocksAux s hs).length = hs.length := by
  intro hs
  induction hs with
  | nil => rfl
  | cons h t ih => simp [blocksAux, ih]

/-- One content block per question header. -/
theorem blocksOf_length (s : List Char) :
    (blocksOf s).length = (findHeaders s).length := blocksAux_length s _

/-- C2 (amended): for every input, each parser emits one record per block
that its own marker searches accept, so the output length is the header
count minus the number of blocks its loop body rejects (for any reason, a
missing answer marker or missing choice markers); and a block with no
`Answer: <letter>` occurrence anywhere is always rejected by both
variants. -/
theorem c2_amended_skip_accounting :
    ∀ text : List Char,
      (Baseline.parse_questions text).length =
        (findHeaders (preClean text)).length -
          (blocksOf (preClean text)).countP
            (fun b => (Baseline.parse_block b.1 b.2.1 b.2.2).isNone) ∧
      (Fixed.parse_questions text).length =
        (findHeaders (preClean text)).length -
          (blocksOf (preClean text)).countP
            (fun b => (Fixed.parse_block b.1 b.2.1 b.2.2).isNone) ∧
      ∀ b ∈ blocksOf (preClean text),
        (∀ i, mAnswerAt (b.2.2.drop i) = none) →
        Baseline.parse_block b.1 b.2.1 b.2.2 = none ∧
        Fixed.parse_block b.1 b.2.1 b.2.2 = none := by
  intro text
  refine ⟨?_, ?_, ?_⟩
  · unfold Baseline.parse_questions
    rw [length_filterMap_sub, blocksOf_length]
  · unfold Fixed.parse_questions
    rw [length_filterMap_sub, blocksOf_length]
  · intro b _ h
    exact ⟨parse_block_none_of_no_answer_baseline h,
      parse_block_none_of_no_answer_fixed h⟩

/-- C2 witness: the accounting and marker-free skip at a concrete input. -/
theorem c2_amended_skip_accounting_witness :
    (Baseline.parse_questions (("Question #: 1 - [D]\nno markers here").data)).length =
      (findHeaders (preClean (("Question #: 1 - [D]\nno markers here").data))).length -
        (blocksOf (preClean (("Question #: 1 - [D]\nno markers here").data))).countP
          (fun b => (Baseline.parse_block b.1 b.2.1 b.2.2).isNone) ∧
    Baseline.parse_block 1 (['D']) (("no markers here").data) = none ∧
    Fixed.parse_block 1 (['D']) (("no markers here").data) = none := by
  have h := c2_amended_skip_accounting (("Question #: 1 - [D]\nno markers here").data)
  have hall : ∀ i, mAnswerAt ((("no markers here").data).drop i) = none :=
    noAnswerAll (by decide)
  have hmem : ((1, ['D'], ("no markers here").data) :
      Nat × List Char × List Char) ∈
      blocksOf (preClean (("Question #: 1 - [D]\nno markers here").data)) := by
    decide
  exact ⟨h.1, (h.2.2 _ hmem hall).1, (h.2.2 _ hmem hall).2⟩

/-- C2 counterexample: a block that has an answer marker but no `A.` marker
is skipped, so the emitted length is the header count minus one although no
block is missing the answer marker — the claimed equation fails. -/
theorem c2_counterexample_other_skip_reasons :
    Baseline.parse_questions (("Question #: 1 - [D]\nS\nAnswer: B\nE").data) = [] ∧
    Fixed.parse_questions (("Question #: 1 - [D]\nS\nAnswer: B\nE").data) = [] ∧
    (findHeaders (preClean (("Question #: 1 - [D]\nS\nAnswer: B\nE").data))).length = 1 ∧
    (blocksOf (preClean (("Question #: 1 - [D]\nS\nAnswer: B\nE").data))).map
      (fun b => (ansSearch b.2.2).isSome) = [true] := by
  decide

/-- C4: evaluation of both parsers on a text whose single block is fully
well-formed (each choice text ends at the next lettered marker, the last at
the answer marker): the baseline emits the record, the fixed variant emits
nothing because it looks for the choice markers again inside the remainder
after the first `A.`. -/
theorem c4_variant_divergence_eval :
    Baseline.parse_questions
      (("Question #: 1 - [Access Control]\nStem\nA. foo\nB. bar\nC. baz\nD. qux\nAnswer: B\nWhy").data) =
      [⟨("Q1").data, ("Access Control").data, ("Stem").data,
        mkChoices (("foo").data) (("bar").data) (("baz").data) (("qux").data) 'B',
        ("Why").data, []⟩] ∧
    Fixed.parse_questions
      (("Question #: 1 - [Access Control]\nStem\nA. foo\nB. bar\nC. baz\nD. qux\nAnswer: B\nWhy").data) =
      [] := by
  decide

/-! ## Lemmas about the EPUB builder -/

/-- Specification-side insertion step: append a key unless already seen. -/
def firstSeenStep (acc : List (Option (List Char))) (d : Option (List Char)) :
    List (Option (List Char)) :=
  if d ∈ acc then acc else acc ++ [d]

/-- Specification-side ordering: the distinct values of a list in order of
first appearance. -/
def firstSeen (l : List (Option (List Char))) : List (Option (List Char)) :=
  l.foldl firstSeenStep []

/-- The `any` test of `addQ` is key membership. -/
theorem any_key_eq {β : Type} (m : List (Option (List Char) × β))
    (k : Option (List Char)) :
    m.any (fun p => decide (p.1 = k)) = true ↔ k ∈ m.map Prod.fst := by
  rw [List.any_eq_true]
  constructor
  · rintro ⟨p, hp, he⟩
    exact List.mem_map.mpr ⟨p, hp, of_decide_eq_true he⟩
  · intro hm
    obtain ⟨p, hp, he⟩ := List.mem_map.mp hm
    exact ⟨p, hp, decide_eq_true he⟩

/-- One insertion step only affects the key list as the specification
step does. -/
theorem keys_addQ (m : List (Option (List Char) × List Epub.QJson))
    (q : Epub.QJson) :
    (Epub.addQ m q).map Prod.fst =
      firstSeenStep (m.map Prod.fst) (Epub.domainKeyOf q) := by
  unfold Epub.addQ firstSeenStep
  by_cases hmem : Epub.domainKeyOf q ∈ m.map Prod.fst
  · rw [if_pos ((any_key_eq m _).mpr hmem), if_pos hmem, List.map_map]
    apply List.map_congr_left
    intro p _
    by_cases hp : p.1 = Epub.domainKeyOf q <;> simp [hp]
  · rw [if_neg (fun h => hmem ((any_key_eq m _).mp h)), if_neg hmem]
    simp

/-- Refinement: the grouping keys of `build_epub`'s insertion-ordered
mapping are exactly the domain keys in order of first appearance. -/
theorem keys_groupByDomain (qs : List Epub.QJson) :
    (Epub.groupByDomain qs).map Prod.fst = firstSeen (qs.map Epub.domainKeyOf) := by
  unfold Epub.groupByDomain firstSeen
  rw [List.foldl_map]
  suffices h : ∀ (l : List Epub.QJson) (m : List (Option (List Char) × List Epub.QJson)),
      (l.foldl Epub.addQ m).map Prod.fst =
        l.foldl (fun acc q => firstSeenStep acc (Epub.domainKeyOf q))
          (m.map Prod.fst) by
    exact h qs []
  intro l
  induction l with
  | nil => intro m; rfl
  | cons q t ih =>
    intro m
    rw [List.foldl_cons, List.foldl_cons, ih, keys_addQ]

/-- The unwrapped keys after the (crash-free) `None` filter. -/
theorem keys_filterMap (m : List (Option (List Char) × List Epub.QJson)) :
    (m.filterMap (fun p => p.1.map (fun k => (k, p.2)))).map Prod.fst =
      (m.map Prod.fst).filterMap id := by
  induction m with
  | nil => rfl
  | cons p t ih =>
    cases hp : p.1 with
    | none => simp [hp, ih]
    | some k => simp [hp, ih]

/-- `enumFrom` commutes with `map`. -/
theorem enumFrom_map {α β : Type} (f : α → β) :
    ∀ (n : Nat) (l : List α),
      Epub.enumFrom n (l.map f) = (Epub.enumFrom n l).map (fun e => (e.1, f e.2)) := by
  intro n l
  induction l generalizing n with
  | nil => rfl
  | cons a t ih => simp [Epub.enumFrom, ih]

/-- Inversion of `build_epub`: a successful build is the explicit record
over the filtered grouping. -/
theorem build_epub_some_inv {qs : List Epub.QJson} {title bid now ib : List Char}
    {ic : Bool} {out : Epub.EpubOut}
    (h : Epub.build_epub qs title bid now ic ib = some out) :
    out.navItems =
      (Epub.enumFrom 1 ((Epub.groupByDomain qs).filterMap
          (fun p => p.1.map (fun k => (k, p.2))))).map
        (fun e => (e.2.1, Epub.chapterFileName e.1 (Epub.slugOr e.2.1))) ∧
    out.manifestItems = Epub.stdManifestItems ++
      (Epub.enumFrom 1 ((Epub.groupByDomain qs).filterMap
          (fun p => p.1.map (fun k => (k, p.2))))).map
        (fun e => Epub.chapterManifestItem e.1 (Epub.slugOr e.2.1)) ∧
    out.spineItems = Epub.titleSpineItem ::
      (Epub.enumFrom 1 ((Epub.groupByDomain qs).filterMap
          (fun p => p.1.map (fun k => (k, p.2))))).map
        (fun e => Epub.spineRefItem e.1) ∧
    out.zipEntries =
      (("mimetype").data, Epub.ZMethod.stored, ("application/epub+zip").data) ::
      (("META-INF/container.xml").data, Epub.ZMethod.deflated, Epub.containerXml) ::
      (("OEBPS/content.opf").data, Epub.ZMethod.deflated, out.contentOpf) ::
      (("OEBPS/toc.ncx").data, Epub.ZMethod.deflated, out.tocNcx) ::
      (("OEBPS/nav.xhtml").data, Epub.ZMethod.deflated, out.navXhtml) ::
      (("OEBPS/styles/style.css").data, Epub.ZMethod.deflated, Epub.styleCss) ::
      ((if ic then [(("OEBPS/pwa-icon.svg").data, Epub.ZMethod.stored, ib)] else []) ++
        (("OEBPS/text/title.xhtml").data, Epub.ZMethod.deflated, out.titleXhtml) ::
        out.chapters.map (fun c => (("OEBPS/").data ++ c.1, Epub.ZMethod.deflated, c.2))) := by
  simp only [Epub.build_epub] at h
  by_cases hc : (Epub.groupByDomain qs).any (fun p => p.1.isNone) = true
  · rw [if_pos hc] at h
    exact absurd h (by simp)
  · rw [if_neg hc] at h
    obtain rfl := Option.some.inj h
    exact ⟨rfl, rfl, rfl, rfl⟩

/-- C5 (confirmed): in a successful build, the chapter order in the
navigation items (table of contents and NCX map), the manifest tail and the
spine after the title entry is exactly the order of first appearance of the
domain keys in the input sequence. -/
theorem c5_first_seen_chapter_order :
    ∀ (qs : List Epub.QJson) (title bid now ib : List Char) (ic : Bool)
      (out : Epub.EpubOut),
      Epub.build_epub qs title bid now ic ib = some out →
      out.navItems =
        (Epub.enumFrom 1 ((firstSeen (qs.map Epub.domainKeyOf)).filterMap id)).map
          (fun e => (e.2, Epub.chapterFileName e.1 (Epub.slugOr e.2))) ∧
      out.manifestItems = Epub.stdManifestItems ++
        (Epub.enumFrom 1 ((firstSeen (qs.map Epub.domainKeyOf)).filterMap id)).map
          (fun e => Epub.chapterManifestItem e.1 (Epub.slugOr e.2)) ∧
      out.spineItems = Epub.titleSpineItem ::
        (Epub.enumFrom 1 ((firstSeen (qs.map Epub.domainKeyOf)).filterMap id)).map
          (fun e => Epub.spineRefItem e.1) := by
  intro qs title bid now ib ic out h
  obtain ⟨hnav, hman, hspn, _⟩ := build_epub_some_inv h
  have hkeys : ((Epub.groupByDomain qs).filterMap
      (fun p => p.1.map (fun k => (k, p.2)))).map Prod.fst =
      (firstSeen (qs.map Epub.domainKeyOf)).filterMap id := by
    rw [keys_filterMap, keys_groupByDomain]
  refine ⟨?_, ?_, ?_⟩
  · rw [hnav, ← hkeys, enumFrom_map, List.map_map]
    rfl
  · rw [hman, ← hkeys, enumFrom_map, List.map_map]
    rfl
  · rw [hspn, ← hkeys, enumFrom_map, List.map_map]
    rfl

/-- C5 witness: a concrete build whose first-seen domain order differs from
alphabetical order. -/
theorem c5_first_seen_chapter_order_witness :
    ∃ out, Epub.build_epub
        [⟨Epub.Field.absent, Epub.Field.val (("B Dom").data), Epub.Field.absent,
            Epub.Field.absent⟩,
         ⟨Epub.Field.absent, Epub.Field.val (("A Dom").data), Epub.Field.absent,
            Epub.Field.absent⟩,
         ⟨Epub.Field.absent, Epub.Field.val (("B Dom").data), Epub.Field.absent,
            Epub.Field.absent⟩] (("T").data) (("B").data) (("N").data) false [] =
        some out ∧
      out.navItems =
        (Epub.enumFrom 1 ((firstSeen
            (([⟨Epub.Field.absent, Epub.Field.val (("B Dom").data), Epub.Field.absent,
                Epub.Field.absent⟩,
               ⟨Epub.Field.absent, Epub.Field.val (("A Dom").data), Epub.Field.absent,
                Epub.Field.absent⟩,
               ⟨Epub.Field.absent, Epub.Field.val (("B Dom").data), Epub.Field.absent,
                Epub.Field.absent⟩] : List Epub.QJson).map Epub.domainKeyOf)).filterMap id)).map
          (fun e => (e.2, Epub.chapterFileName e.1 (Epub.slugOr e.2))) := by
  cases heval : Epub.build_epub
      [⟨Epub.Field.absent, Epub.Field.val (("B Dom").data), Epub.Field.absent,
          Epub.Field.absent⟩,
       ⟨Epub.Field.absent, Epub.Field.val (("A Dom").data), Epub.Field.absent,
          Epub.Field.absent⟩,
       ⟨Epub.Field.absent, Epub.Field.val (("B Dom").data), Epub.Field.absent,
          Epub.Field.absent⟩] (("T").data) (("B").data) (("N").data) false [] with
  | none => exact absurd heval (by decide)
  | some out =>
    exact ⟨out, rfl, (c5_first_seen_chapter_order _ _ _ _ _ _ _ heval).1⟩

/-- C6 (amended): the first archive entry is always the stored `mimetype`
marker with the EPUB media type, and every later entry except the optional
icon (which `zf.write` stores with the archive's default `ZIP_STORED`) is
deflated. -/
theorem c6_amended_archive_layout :
    ∀ (qs : List Epub.QJson) (title bid now ib : List Char) (ic : Bool)
      (out : Epub.EpubOut),
      Epub.build_epub qs title bid now ic ib = some out →
      out.zipEntries.head? =
        some (("mimetype").data, Epub.ZMethod.stored, ("application/epub+zip").data) ∧
      ∀ e ∈ out.zipEntries.tail, e.1 ≠ ("OEBPS/pwa-icon.svg").data →
        e.2.1 = Epub.ZMethod.deflated := by
  intro qs title bid now ib ic out h
  obtain ⟨-, -, -, hzip⟩ := build_epub_some_inv h
  rw [hzip]
  refine ⟨rfl, ?_⟩
  intro e he hne
  simp only [List.tail_cons] at he
  rcases List.mem_cons.mp he with rfl | he; · rfl
  rcases List.mem_cons.mp he with rfl | he; · rfl
  rcases List.mem_cons.mp he with rfl | he; · rfl
  rcases List.mem_cons.mp he with rfl | he; · rfl
  rcases List.mem_cons.mp he with rfl | he; · rfl
  rcases List.mem_append.mp he with hi | he
  · cases ic with
    | false => simp at hi
    | true =>
      obtain rfl := by simpa using hi
      exact absurd rfl hne
  · rcases List.mem_cons.mp he with rfl | he; · rfl
    obtain ⟨c, -, rfl⟩ := List.mem_map.mp he
    rfl

/-- C6 witness: the layout at a concrete build with the icon present. -/
theorem c6_amended_archive_layout_witness :
    ∃ out, Epub.build_epub [] (("T").data) (("B").data) (("N").data) true
        (("I").data) = some out ∧
      out.zipEntries.head? =
        some (("mimetype").data, Epub.ZMethod.stored, ("application/epub+zip").data) ∧
      ∀ e ∈ out.zipEntries.tail, e.1 ≠ ("OEBPS/pwa-icon.svg").data →
        e.2.1 = Epub.ZMethod.deflated := by
  cases heval : Epub.build_epub [] (("T").data) (("B").data) (("N").data) true
      (("I").data) with
  | none => exact absurd heval (by decide)
  | some out =>
    exact ⟨out, rfl, (c6_amended_archive_layout _ _ _ _ _ _ _ heval).1,
      (c6_amended_archive_layout _ _ _ _ _ _ _ heval).2⟩

/-- C6 counterexample: with the icon asset present, the produced archive
contains a non-first entry (the icon) that is stored, not compressed — the
claim that every entry but the first is compressed is false on the code. -/
theorem c6_counterexample_icon_not_compressed :
    (("OEBPS/pwa-icon.svg").data, Epub.ZMethod.stored, ("I").data) ∈
      (Epub.build_epub [] (("T").data) (("B").data) (("N").data) true
          (("I").data)).elim [] (fun o => o.zipEntries.tail) := by
  decide

/-- A single record with a non-`null` domain always renders. -/
theorem build_epub_singleton_some (q : Epub.QJson) (title bid now ib : List Char)
    (ic : Bool) (h : q.domain ≠ Epub.Field.null) :
    ∃ out, Epub.build_epub [q] title bid now ic ib = some out := by
  cases hdom : q.domain with
  | null => exact absurd hdom h
  | absent =>
    apply Option.isSome_iff_exists.mp
    simp [Epub.build_epub, Epub.groupByDomain, Epub.addQ, Epub.domainKeyOf,
      Epub.Field.getD, hdom]
  | val d =>
    apply Option.isSome_iff_exists.mp
    simp [Epub.build_epub, Epub.groupByDomain, Epub.addQ, Epub.domainKeyOf,
      Epub.Field.getD, hdom]

/-- C7 (confirmed): the rendered answer block uses the first choice whose
`correct` field is exactly `true`; when there is none the identifier and the
text are empty and the answer paragraph is the bare template — and the build
still succeeds (on any record whose domain is not JSON `null`, the partiality
settled separately by C9). -/
theorem c7_first_correct_choice :
    ∀ q : Epub.QJson,
      (∀ c, Epub.correctChoiceOf q = some c →
        c.correct = Epub.Field.val true ∧
        (∃ pre post, Epub.choicesOf q = pre ++ c :: post ∧
          ∀ c2 ∈ pre, ¬(c2.correct = Epub.Field.val true)) ∧
        Epub.answerIdOf q = Epub.getOrEmpty c.id ∧
        Epub.answerTextOf q = Epub.getOrEmpty c.text) ∧
      (Epub.correctChoiceOf q = none →
        Epub.answerIdOf q = [] ∧ Epub.answerTextOf q = [] ∧
        Epub.answerLine q = ("<p class=\"answer\"><b>Answer:</b> </p>").data) ∧
      (∀ (title bid now ib : List Char) (ic : Bool),
        q.domain ≠ Epub.Field.null →
        (Epub.build_epub [q] title bid now ic ib).isSome = true) := by
  intro q
  refine ⟨?_, ?_, ?_⟩
  · intro c hc
    obtain ⟨hpc, pre, post, hsplit, hpre⟩ := find?_first hc
    refine ⟨by simpa using hpc, ⟨pre, post, hsplit, ?_⟩, ?_, ?_⟩
    · intro c2 h2
      have := hpre c2 h2
      simpa using this
    · simp [Epub.answerIdOf, hc]
    · simp [Epub.answerTextOf, hc]
  · intro hc
    refine ⟨by simp [Epub.answerIdOf, hc], by simp [Epub.answerTextOf, hc], ?_⟩
    simp only [Epub.answerLine, Epub.answerIdOf, Epub.answerTextOf, hc]
    decide
  · intro title bid now ib ic h
    obtain ⟨out, hout⟩ := build_epub_singleton_some q title bid now ib ic h
    simp [hout]

/-- C7 witness: a record with no `correct = true` choice renders the empty
answer template and still builds; one with a late `correct` choice selects
the first such. -/
theorem c7_first_correct_choice_witness :
    Epub.answerLine ⟨Epub.Field.absent, Epub.Field.absent, Epub.Field.absent,
        Epub.Field.val [⟨Epub.Field.val (("A").data), Epub.Field.val (("a").data),
          Epub.Field.val false⟩]⟩ =
      ("<p class=\"answer\"><b>Answer:</b> </p>").data ∧
    (Epub.build_epub [⟨Epub.Field.absent, Epub.Field.absent, Epub.Field.absent,
        Epub.Field.val [⟨Epub.Field.val (("A").data), Epub.Field.val (("a").data),
          Epub.Field.val false⟩]⟩] [] [] [] false []).isSome = true ∧
    Epub.answerIdOf ⟨Epub.Field.absent, Epub.Field.absent, Epub.Field.absent,
        Epub.Field.val [⟨Epub.Field.val (("A").data), Epub.Field.val (("a").data),
          Epub.Field.val false⟩,
         ⟨Epub.Field.val (("B").data), Epub.Field.val (("b").data),
          Epub.Field.val true⟩]⟩ =
      Epub.getOrEmpty (Epub.Field.val (("B").data)) := by
  refine ⟨((c7_first_correct_choice _).2.1 (by decide)).2.2, ?_, ?_⟩
  · exact (c7_first_correct_choice _).2.2 [] [] [] [] false (by decide)
  · exact (((c7_first_correct_choice _).1
      ⟨Epub.Field.val (("B").data), Epub.Field.val (("b").data),
        Epub.Field.val true⟩ (by decide)).2.2).1

/-- C9 (amended): the builder is total over records with missing fields —
missing or `null` id, question and choices render as empty text, and an
absent domain is grouped under `Uncategorized` — but a JSON-`null` domain
value is not defended: it reaches `_slugify(None)` and the build fails. -/
theorem c9_partial_record_totality :
    ∀ (q : Epub.QJson) (title bid now ib : List Char) (ic : Bool),
      (q.domain ≠ Epub.Field.null →
        ∃ out, Epub.build_epub [q] title bid now ic ib = some out) ∧
      (q.domain = Epub.Field.absent →
        Epub.domainKeyOf q = some (("Uncategorized").data)) ∧
      ((q.id = Epub.Field.absent ∨ q.id = Epub.Field.null) → Epub.qidOf q = []) ∧
      ((q.question = Epub.Field.absent ∨ q.question = Epub.Field.null) →
        Epub.questionTextOf q = []) ∧
      ((q.choices = Epub.Field.absent ∨ q.choices = Epub.Field.null) →
        Epub.choicesOf q = [] ∧ Epub.answerIdOf q = [] ∧
        Epub.answerTextOf q = []) := by
  intro q title bid now ib ic
  refine ⟨fun h => build_epub_singleton_some q title bid now ib ic h, ?_, ?_, ?_, ?_⟩
  · intro h
    simp [Epub.domainKeyOf, h, Epub.Field.getD]
  · rintro (h | h) <;> simp [Epub.qidOf, h, Epub.getOrEmpty]
  · rintro (h | h) <;>
      simp [Epub.questionTextOf, h, Epub.getOrEmpty, pyStrip, rstripWs,
        List.dropWhile]
  · rintro (h | h) <;>
      refine ⟨by simp [Epub.choicesOf, h], ?_, ?_⟩ <;>
      simp [Epub.answerIdOf, Epub.answerTextOf, Epub.correctChoiceOf,
        Epub.choicesOf, h]

/-- C9 witness: a record with every field absent renders. -/
theorem c9_partial_record_totality_witness :
    (∃ out, Epub.build_epub
        [⟨Epub.Field.absent, Epub.Field.absent, Epub.Field.absent,
          Epub.Field.absent⟩] [] [] [] false [] = some out) ∧
    Epub.domainKeyOf ⟨Epub.Field.absent, Epub.Field.absent, Epub.Field.absent,
        Epub.Field.absent⟩ = some (("Uncategorized").data) ∧
    Epub.qidOf ⟨Epub.Field.absent, Epub.Field.absent, Epub.Field.absent,
        Epub.Field.absent⟩ = [] ∧
    Epub.questionTextOf ⟨Epub.Field.absent, Epub.Field.absent, Epub.Field.absent,
        Epub.Field.absent⟩ = [] ∧
    Epub.choicesOf ⟨Epub.Field.absent, Epub.Field.absent, Epub.Field.absent,
        Epub.Field.absent⟩ = [] := by
  have h := c9_partial_record_totality
    ⟨Epub.Field.absent, Epub.Field.absent, Epub.Field.absent, Epub.Field.absent⟩
    [] [] [] [] false
  exact ⟨h.1 (by decide), h.2.1 rfl, h.2.2.1 (Or.inl rfl),
    h.2.2.2.1 (Or.inl rfl), (h.2.2.2.2 (Or.inl rfl)).1⟩

/-- C9 counterexample: a record whose domain field is JSON `null` crashes
`build_epub` (`_slugify(None)` raises `TypeError`), so the claim that a
null domain still renders is false on the code. -/
theorem c9_counterexample_null_domain_crash :
    Epub.build_epub [⟨Epub.Field.absent, Epub.Field.null, Epub.Field.absent,
        Epub.Field.absent⟩] [] [] [] false [] = none := by
  decide

/-! ## Escaping safety (claim C8)

`ampOk` says every ampersand begins one of the five escape entities;
`ltOk` says every `<` begins one of the three markup tags `_as_paragraphs`
itself emits. -/

/-- The suffix after an `&` starts one of the five escape entities. -/
def entityHead (t : List Char) : Bool :=
  ("amp;".data).isPrefixOf t || ("lt;".data).isPrefixOf t ||
  ("gt;".data).isPrefixOf t || ("quot;".data).isPrefixOf t ||
  ("#x27;".data).isPrefixOf t

/-- Every ampersand begins an escape entity. -/
def ampOk : List Char → Bool
  | [] => true
  | c :: rest => (!(c == '&') || entityHead rest) && ampOk rest

/-- The suffix after a `<` starts `p>`, `/p>` or `br/>`. -/
def tagHead (t : List Char) : Bool :=
  ("p>".data).isPrefixOf t || ("/p>".data).isPrefixOf t ||
  ("br/>".data).isPrefixOf t

/-- Every `<` begins one of the paragraph tags. -/
def ltOk : List Char → Bool
  | [] => true
  | c :: rest => (!(c == '<') || tagHead rest) && ltOk rest

theorem isPrefixOf_append_right {l t b : List Char} (h : l.isPrefixOf t = true) :
    l.isPrefixOf (t ++ b) = true := by
  induction l generalizing t with
  | nil => simp [List.isPrefixOf]
  | cons c cs ih =>
    cases t with
    | nil => simp [List.isPrefixOf] at h
    | cons d ds =>
      simp only [List.isPrefixOf, List.cons_append, Bool.and_eq_true] at h ⊢
      exact ⟨h.1, ih h.2⟩

theorem entityHead_append {t b : List Char} (h : entityHead t = true) :
    entityHead (t ++ b) = true := by
  simp only [entityHead, Bool.or_eq_true] at h ⊢
  rcases h with ((((h | h) | h) | h) | h) <;> simp [isPrefixOf_append_right h]

theorem tagHead_append {t b : List Char} (h : tagHead t = true) :
    tagHead (t ++ b) = true := by
  simp only [tagHead, Bool.or_eq_true] at h ⊢
  rcases h with ((h | h) | h) <;> simp [isPrefixOf_append_right h]

theorem ampOk_cons (c : Char) (rest : List Char) :
    ampOk (c :: rest) = ((!(c == '&') || entityHead rest) && ampOk rest) := rfl

theorem ltOk_cons (c : Char) (rest : List Char) :
    ltOk (c :: rest) = ((!(c == '<') || tagHead rest) && ltOk rest) := rfl

theorem ampOk_append {a b : List Char} (ha : ampOk a = true) (hb : ampOk b = true) :
    ampOk (a ++ b) = true := by
  induction a with
  | nil => simpa using hb
  | cons c t ih =>
    rw [ampOk_cons, Bool.and_eq_true] at ha
    obtain ⟨h1, h2⟩ := ha
    rw [List.cons_append, ampOk_cons, Bool.and_eq_true]
    refine ⟨?_, ih h2⟩
    rw [Bool.or_eq_true] at h1 ⊢
    rcases h1 with h | h
    · exact Or.inl h
    · exact Or.inr (entityHead_append h)

theorem ltOk_append {a b : List Char} (ha : ltOk a = true) (hb : ltOk b = true) :
    ltOk (a ++ b) = true := by
  induction a with
  | nil => simpa using hb
  | cons c t ih =>
    rw [ltOk_cons, Bool.and_eq_true] at ha
    obtain ⟨h1, h2⟩ := ha
    rw [List.cons_append, ltOk_cons, Bool.and_eq_true]
    refine ⟨?_, ih h2⟩
    rw [Bool.or_eq_true] at h1 ⊢
    rcases h1 with h | h
    · exact Or.inl h
    · exact Or.inr (tagHead_append h)

theorem ampOk_escChar (c : Char) {rest : List Char} (hr : ampOk rest = true) :
    ampOk (Epub.escChar c ++ rest) = true := by
  unfold Epub.escChar
  split_ifs with h1 h2 h3 h4 h5
  · show ampOk ('&' :: 'a' :: 'm' :: 'p' :: ';' :: rest) = true
    simp [ampOk_cons, entityHead, List.isPrefixOf, hr]
  · show ampOk ('&' :: 'l' :: 't' :: ';' :: rest) = true
    simp [ampOk_cons, entityHead, List.isPrefixOf, hr]
  · show ampOk ('&' :: 'g' :: 't' :: ';' :: rest) = true
    simp [ampOk_cons, entityHead, List.isPrefixOf, hr]
  · show ampOk ('&' :: 'q' :: 'u' :: 'o' :: 't' :: ';' :: rest) = true
    simp [ampOk_cons, entityHead, List.isPrefixOf, hr]
  · show ampOk ('&' :: '#' :: 'x' :: '2' :: '7' :: ';' :: rest) = true
    simp [ampOk_cons, entityHead, List.isPrefixOf, hr]
  · show ampOk (c :: rest) = true
    have hc : (c == '&') = false := by simpa using h1
    simp [ampOk_cons, hc, hr]

theorem ampOk_htmlEscape (s : List Char) : ampOk (Epub.htmlEscape s) = true := by
  induction s with
  | nil => rfl
  | cons c t ih => exact ampOk_escChar c ih

theorem escChar_safe (d : Char) :
    (Epub.escChar d).all
      (fun c => !(c == '<') && !(c == '>') && !(c == '"') && !(c == Epub.apos)) =
      true := by
  unfold Epub.escChar
  split_ifs with h1 h2 h3 h4 h5
  · decide
  · decide
  · decide
  · decide
  · decide
  · have e2 : (d == '<') = false := by simpa using h2
    have e3 : (d == '>') = false := by simpa using h3
    have e4 : (d == '"') = false := by simpa using h4
    have e5 : (d == Epub.apos) = false := by simpa using h5
    simp [e2, e3, e4, e5]

theorem htmlEscape_safe (s : List Char) :
    (Epub.htmlEscape s).all
      (fun c => !(c == '<') && !(c == '>') && !(c == '"') && !(c == Epub.apos)) =
      true := by
  induction s with
  | nil => rfl
  | cons c t ih =>
    show (Epub.escChar c ++ Epub.htmlEscape t).all _ = true
    rw [List.all_append]
    simp [escChar_safe c, ih]

theorem not_lt_mem_htmlEscape {s : List Char} : '<' ∉ Epub.htmlEscape s := by
  intro hmem
  have := List.all_eq_true.mp (htmlEscape_safe s) _ hmem
  simp at this

theorem brRepl_append (a b : List Char) :
    Epub.brRepl (a ++ b) = Epub.brRepl a ++ Epub.brRepl b := by
  induction a with
  | nil => rfl
  | cons c t ih => simp [Epub.brRepl, ih]

theorem entityHead_brRepl {t : List Char} (h : entityHead t = true) :
    entityHead (Epub.brRepl t) = true := by
  have key : ∀ lit : List Char, Epub.brRepl lit = lit →
      lit.isPrefixOf t = true → lit.isPrefixOf (Epub.brRepl t) = true := by
    intro lit hbr hp
    rw [List.isPrefixOf_iff_prefix] at hp ⊢
    obtain ⟨t2, rfl⟩ := hp
    rw [brRepl_append, hbr]
    exact ⟨Epub.brRepl t2, rfl⟩
  simp only [entityHead, Bool.or_eq_true] at h ⊢
  rcases h with ((((h | h) | h) | h) | h)
  · exact Or.inl (Or.inl (Or.inl (Or.inl (key _ (by decide) h))))
  · exact Or.inl (Or.inl (Or.inl (Or.inr (key _ (by decide) h))))
  · exact Or.inl (Or.inl (Or.inr (key _ (by decide) h)))
  · exact Or.inl (Or.inr (key _ (by decide) h))
  · exact Or.inr (key _ (by decide) h)

theorem ampOk_brRepl {e : List Char} (h : ampOk e = true) :
    ampOk (Epub.brRepl e) = true := by
  induction e with
  | nil => rfl
  | cons c rest ih =>
    rw [ampOk_cons, Bool.and_eq_true] at h
    obtain ⟨h1, h2⟩ := h
    by_cases hc : c = '\n'
    · subst hc
      show ampOk ('<' :: 'b' :: 'r' :: '/' :: '>' :: Epub.brRepl rest) = true
      simp [ampOk_cons, ih h2]
    · have hb : Epub.brRepl (c :: rest) = c :: Epub.brRepl rest := by
        simp [Epub.brRepl, hc]
      rw [hb, ampOk_cons, Bool.and_eq_true]
      refine ⟨?_, ih h2⟩
      rw [Bool.or_eq_true] at h1 ⊢
      rcases h1 with h | h
      · exact Or.inl h
      · exact Or.inr (entityHead_brRepl h)

theorem ltOk_brRepl {e : List Char} (h : '<' ∉ e) :
    ltOk (Epub.brRepl e) = true := by
  induction e with
  | nil => rfl
  | cons c rest ih =>
    have hc2 : c ≠ '<' := fun he => h (by simp [he])
    have hrest : '<' ∉ rest := fun hr => h (by simp [hr])
    by_cases hc : c = '\n'
    · subst hc
      show ltOk ('<' :: 'b' :: 'r' :: '/' :: '>' :: Epub.brRepl rest) = true
      simp [ltOk_cons, tagHead, List.isPrefixOf, ih hrest]
    · have hb : Epub.brRepl (c :: rest) = c :: Epub.brRepl rest := by
        simp [Epub.brRepl, hc]
      have hcb : (c == '<') = false := by simpa using hc2
      rw [hb, ltOk_cons, Bool.and_eq_true]
      exact ⟨by simp [hcb], ih hrest⟩

theorem ampOk_joinNl :
    ∀ xs : List (List Char), (∀ x ∈ xs, ampOk x = true) →
      ampOk (Epub.joinNl xs) = true := by
  intro xs
  induction xs with
  | nil => intro; rfl
  | cons x t ih =>
    intro h
    cases t with
    | nil => simpa [Epub.joinNl] using h x (by simp)
    | cons y t2 =>
      have h1 : ampOk x = true := h x (by simp)
      have h2 : ampOk (Epub.joinNl (y :: t2)) = true :=
        ih (fun z hz => h z (by simp [hz]))
      have h3 : ampOk ('\n' :: Epub.joinNl (y :: t2)) = true := by
        rw [ampOk_cons]
        simp [h2]
      exact ampOk_append h1 h3

theorem ltOk_joinNl :
    ∀ xs : List (List Char), (∀ x ∈ xs, ltOk x = true) →
      ltOk (Epub.joinNl xs) = true := by
  intro xs
  induction xs with
  | nil => intro; rfl
  | cons x t ih =>
    intro h
    cases t with
    | nil => simpa [Epub.joinNl] using h x (by simp)
    | cons y t2 =>
      have h1 : ltOk x = true := h x (by simp)
      have h2 : ltOk (Epub.joinNl (y :: t2)) = true :=
        ih (fun z hz => h z (by simp [hz]))
      have h3 : ltOk ('\n' :: Epub.joinNl (y :: t2)) = true := by
        rw [ltOk_cons]
        simp [h2]
      exact ltOk_append h1 h3

theorem ampOk_as_paragraphs (s : List Char) :
    ampOk (Epub.as_paragraphs s) = true := by
  by_cases ht : (pyStrip s).isEmpty
  · simp [Epub.as_paragraphs, ht]
    rfl
  · simp only [Epub.as_paragraphs, ht, if_false, Bool.false_eq_true]
    apply ampOk_joinNl
    intro x hx
    obtain ⟨p, -, rfl⟩ := List.mem_map.mp hx
    exact ampOk_append
      (ampOk_append (by decide) (ampOk_brRepl (ampOk_htmlEscape p)))
      (by decide)

theorem ltOk_as_paragraphs (s : List Char) :
    ltOk (Epub.as_paragraphs s) = true := by
  by_cases ht : (pyStrip s).isEmpty
  · simp [Epub.as_paragraphs, ht]
    rfl
  · simp only [Epub.as_paragraphs, ht, if_false, Bool.false_eq_true]
    apply ltOk_joinNl
    intro x hx
    obtain ⟨p, -, rfl⟩ := List.mem_map.mp hx
    exact ltOk_append
      (ltOk_append (by decide) (ltOk_brRepl not_lt_mem_htmlEscape))
      (by decide)

/-- C8 (confirmed): `html.escape` output contains no raw `<`, `>`, `"` or
apostrophe and every `&` in it begins an escape entity; `_as_paragraphs`
output likewise has entity-only ampersands and its only `<` characters
begin the paragraph markup tags it emits itself.  Every user-supplied field
(id, domain, stem, answer id/text) of a rendered chapter passes through
exactly these two functions. -/
theorem c8_user_text_escaped :
    ∀ s : List Char,
      '<' ∉ Epub.htmlEscape s ∧ '>' ∉ Epub.htmlEscape s ∧
      '"' ∉ Epub.htmlEscape s ∧ Epub.apos ∉ Epub.htmlEscape s ∧
      ampOk (Epub.htmlEscape s) = true ∧
      ampOk (Epub.as_paragraphs s) = true ∧
      ltOk (Epub.as_paragraphs s) = true := by
  intro s
  refine ⟨not_lt_mem_htmlEscape, ?_, ?_, ?_, ampOk_htmlEscape s,
    ampOk_as_paragraphs s, ltOk_as_paragraphs s⟩ <;>
    intro hmem <;>
    have := List.all_eq_true.mp (htmlEscape_safe s) _ hmem <;>
    simp at this

/-- C8 witness: the escaping facts at a concrete markup-laden input. -/
theorem c8_user_text_escaped_witness :
    '<' ∉ Epub.htmlEscape (("a<&b").data) ∧
    '>' ∉ Epub.htmlEscape (("a<&b").data) ∧
    '"' ∉ Epub.htmlEscape (("a<&b").data) ∧
    Epub.apos ∉ Epub.htmlEscape (("a<&b").data) ∧
    ampOk (Epub.htmlEscape (("a<&b").data)) = true ∧
    ampOk (Epub.as_paragraphs (("a<&b").data)) = true ∧
    ltOk (Epub.as_paragraphs (("a<&b").data)) = true :=
  c8_user_text_escaped (("a<&b").data)

/-! ## Idempotence of the text cleaner (claim C3)

A single cleaning pass is not idempotent in general: collapsing whitespace
can create a boilerplate marker that a second pass removes (see the
counterexample).  It is idempotent exactly when the cleaned output contains
no occurrence of any removal pattern, which the predicates below state. -/

/-- A matcher hits nowhere in a string. -/
def noHit (m : Matcher Nat) (t : List Char) : Prop := ∀ i, m t i = none

/-- No occurrence of any of the baseline `clean_explanation` removal
patterns. -/
def cleanMarkersB (t : List Char) : Prop :=
  noHit (mQm whyCorrectLit) t ∧ noHit (mQm whyNotLit) t ∧
  noHit (mEol relevantLit) t ∧ noHit (mEol officialLit) t ∧
  noHit (mEol finalVerifLit) t ∧ noHit (mEol finalAnswerLit) t ∧
  noHit (mLit leadersLit) t ∧ noHit (mLit practiceLit) t ∧
  noHit (mLit cyberAbLit) t ∧ noHit mPageLine t

/-- No occurrence of any of the fixed `clean_explanation` removal
patterns. -/
def cleanMarkersF (t : List Char) : Prop :=
  cleanMarkersB t ∧ noHit mWbNofM t

/-- A string whose only whitespace is single interior spaces. -/
def wsNormB : List Char → Bool
  | [] => true
  | [c] => !isPySpace c || c == ' '
  | c :: d :: rest =>
    ((!isPySpace c || c == ' ') && !(isPySpace c && isPySpace d)) &&
      wsNormB (d :: rest)

/-- The first character, if any, is not whitespace. -/
def headNotWs (l : List Char) : Bool :=
  match l with
  | [] => true
  | c :: _ => !isPySpace c

/-- The last character, if any, is not whitespace. -/
def lastNotWs : List Char → Bool
  | [] => true
  | [c] => !isPySpace c
  | _ :: rest => lastNotWs rest

theorem wsNormB_tail {c : Char} {l : List Char} (h : wsNormB (c :: l) = true) :
    wsNormB l = true := by
  cases l with
  | nil => rfl
  | cons d t =>
    simp only [wsNormB, Bool.and_eq_true] at h
    exact h.2

theorem wsNormB_head_cond {c : Char} {l : List Char}
    (h : wsNormB (c :: l) = true) : (!isPySpace c || c == ' ') = true := by
  cases l with
  | nil => exact h
  | cons d t =>
    simp only [wsNormB, Bool.and_eq_true] at h
    exact h.1.1

theorem wsNormB_pair {c d : Char} {l : List Char}
    (h : wsNormB (c :: d :: l) = true) : (isPySpace c && isPySpace d) = false := by
  simp only [wsNormB, Bool.and_eq_true] at h
  have h2 := h.1.2
  rwa [Bool.not_eq_true'] at h2

theorem wsNormB_cons_nonws {c : Char} {l : List Char} (hc : isPySpace c = false)
    (h : wsNormB l = true) : wsNormB (c :: l) = true := by
  cases l with
  | nil => simp [wsNormB, hc]
  | cons d t =>
    simp only [wsNormB, Bool.and_eq_true]
    exact ⟨⟨by simp [hc], by simp [hc]⟩, h⟩

theorem wsNormB_cons_space {l : List Char} (hh : headNotWs l = true)
    (h : wsNormB l = true) : wsNormB (' ' :: l) = true := by
  cases l with
  | nil => decide
  | cons d t =>
    have hd : isPySpace d = false := by simpa [headNotWs] using hh
    simp only [wsNormB, Bool.and_eq_true]
    exact ⟨⟨by decide, by simp [hd]⟩, h⟩

/-- The whitespace collapser produces a normalised string (joint statement
for the two mutual functions). -/
theorem collWs_norm : ∀ y : List Char,
    wsNormB (collWs y) = true ∧ wsNormB (collWsSkip y) = true ∧
      headNotWs (collWsSkip y) = true := by
  intro y
  induction y with
  | nil => exact ⟨rfl, rfl, rfl⟩
  | cons c rest ih =>
    obtain ⟨ih1, ih2, ih3⟩ := ih
    by_cases hc : isPySpace c = true
    · have e1 : collWs (c :: rest) = ' ' :: collWsSkip rest := by
        simp [collWs, hc]
      have e2 : collWsSkip (c :: rest) = collWsSkip rest := by
        simp [collWsSkip, hc]
      rw [e1, e2]
      exact ⟨wsNormB_cons_space ih3 ih2, ih2, ih3⟩
    · have hc2 : isPySpace c = false := by simpa using hc
      have e1 : collWs (c :: rest) = c :: collWs rest := by simp [collWs, hc2]
      have e2 : collWsSkip (c :: rest) = c :: collWs rest := by
        simp [collWsSkip, hc2]
      rw [e1, e2]
      exact ⟨wsNormB_cons_nonws hc2 ih1, wsNormB_cons_nonws hc2 ih1,
        by simp [headNotWs, hc2]⟩

/-- On an already normalised string the whitespace collapser is the
identity. -/
theorem collWs_id : ∀ x : List Char, wsNormB x = true →
    collWs x = x ∧ (headNotWs x = true → collWsSkip x = x) := by
  intro x
  induction x with
  | nil => exact fun _ => ⟨rfl, fun _ => rfl⟩
  | cons c rest ih =>
    intro h
    obtain ⟨ih1, ih2⟩ := ih (wsNormB_tail h)
    by_cases hc : isPySpace c = true
    · have hcsp : c = ' ' := by
        have hcond := wsNormB_head_cond h
        rw [Bool.or_eq_true] at hcond
        rcases hcond with h1 | h1
        · rw [hc] at h1
          simp at h1
        · simpa using h1
      have hheadrest : headNotWs rest = true := by
        cases rest with
        | nil => rfl
        | cons d t =>
          have hp := wsNormB_pair h
          rw [hc] at hp
          simp only [Bool.true_and] at hp
          simp [headNotWs, hp]
      constructor
      · rw [show collWs (c :: rest) = ' ' :: collWsSkip rest from by
          simp [collWs, hc], ih2 hheadrest, hcsp]
      · intro hhead
        simp [headNotWs, hc] at hhead
    · have hc2 : isPySpace c = false := by simpa using hc
      constructor
      · rw [show collWs (c :: rest) = c :: collWs rest from by
          simp [collWs, hc2], ih1]
      · intro _
        rw [show collWsSkip (c :: rest) = c :: collWs rest from by
          simp [collWsSkip, hc2], ih1]

/-- On a newline-free string the newline collapser is the identity. -/
theorem collNl_id : ∀ x : List Char, '\n' ∉ x → collNl x = x := by
  intro x
  induction x with
  | nil => intro; rfl
  | cons c rest ih =>
    intro h
    have hc : ¬(c = '\n') := fun he => h (by simp [he])
    have hcb : (c == '\n') = false := by simpa using hc
    rw [show collNl (c :: rest) = c :: collNl rest from by simp [collNl, hcb],
      ih (fun hr => h (by simp [hr]))]

/-- In a normalised string every whitespace character is a plain space. -/
theorem mem_ws_space : ∀ {x : List Char}, wsNormB x = true →
    ∀ c ∈ x, isPySpace c = true → c = ' ' := by
  intro x
  induction x with
  | nil =>
    intro _ c hc
    simp at hc
  | cons d rest ih =>
    intro h c hc hw
    rcases List.mem_cons.mp hc with rfl | hc2
    · have hcond := wsNormB_head_cond h
      rw [Bool.or_eq_true] at hcond
      rcases hcond with h1 | h1
      · rw [hw] at h1
        simp at h1
      · simpa using h1
    · exact ih (wsNormB_tail h) c hc2 hw

/-- `rstripWs` of a nonempty list is empty or keeps the head. -/
theorem rstripWs_cons_shape (c : Char) (rest : List Char) :
    rstripWs (c :: rest) = [] ∨ ∃ t, rstripWs (c :: rest) = c :: t := by
  rw [rstripWs]
  cases hr : rstripWs rest with
  | nil =>
    by_cases hc : isPySpace c = true
    · exact Or.inl (by simp [hc])
    · exact Or.inr ⟨[], by simp [hc]⟩
  | cons d t => exact Or.inr ⟨d :: t, by simp⟩

theorem wsNormB_rstrip : ∀ {x : List Char}, wsNormB x = true →
    wsNormB (rstripWs x) = true := by
  intro x
  induction x with
  | nil => intro h; exact h
  | cons c rest ih =>
    intro h
    have hr := ih (wsNormB_tail h)
    rw [rstripWs]
    cases hrr : rstripWs rest with
    | nil =>
      by_cases hc : isPySpace c = true <;> simp [wsNormB, hc]
    | cons d t =>
      rw [hrr] at hr
      have hd : ∃ t0, rest = d :: t0 := by
        cases rest with
        | nil => simp [rstripWs] at hrr
        | cons e t1 =>
          rcases rstripWs_cons_shape e t1 with h0 | ⟨t2, h0⟩
          · rw [h0] at hrr
            simp at hrr
          · rw [h0] at hrr
            obtain ⟨rfl, rfl⟩ := by simpa using hrr
            exact ⟨t1, rfl⟩
      obtain ⟨t0, rfl⟩ := hd
      simp only [wsNormB, Bool.and_eq_true] at h ⊢
      exact ⟨h.1, hr⟩

theorem headNotWs_rstrip {x : List Char} (h : headNotWs x = true) :
    headNotWs (rstripWs x) = true := by
  cases x with
  | nil => exact h
  | cons c t =>
    rcases rstripWs_cons_shape c t with h0 | ⟨t2, h0⟩ <;> rw [h0]
    · rfl
    · simpa [headNotWs] using h

theorem lastNotWs_rstrip : ∀ x : List Char, lastNotWs (rstripWs x) = true := by
  intro x
  induction x with
  | nil => rfl
  | cons c rest ih =>
    rw [rstripWs]
    cases hrr : rstripWs rest with
    | nil =>
      by_cases hc : isPySpace c = true <;> simp [lastNotWs, hc]
    | cons d t =>
      have := ih
      rw [hrr] at this
      exact this

theorem wsNormB_dropWhile {x : List Char} (h : wsNormB x = true) :
    wsNormB (x.dropWhile isPySpace) = true := by
  induction x with
  | nil => exact h
  | cons c rest ih =>
    by_cases hc : isPySpace c = true
    · rw [List.dropWhile_cons_of_pos hc]
      exact ih (wsNormB_tail h)
    · rw [List.dropWhile_cons_of_neg (by simpa using hc)]
      exact h

theorem headNotWs_dropWhile (x : List Char) :
    headNotWs (x.dropWhile isPySpace) = true := by
  induction x with
  | nil => rfl
  | cons c rest ih =>
    by_cases hc : isPySpace c = true
    · rw [List.dropWhile_cons_of_pos hc]
      exact ih
    · have hc2 : isPySpace c = false := by simpa using hc
      rw [List.dropWhile_cons_of_neg (by simp [hc2])]
      simp [headNotWs, hc2]

theorem dropWhile_id_of_head {x : List Char} (h : headNotWs x = true) :
    x.dropWhile isPySpace = x := by
  cases x with
  | nil => rfl
  | cons c t =>
    have hc : isPySpace c = false := by simpa [headNotWs] using h
    rw [List.dropWhile_cons_of_neg (by simp [hc])]

theorem rstripWs_id_of_last : ∀ {x : List Char}, lastNotWs x = true →
    rstripWs x = x := by
  intro x
  induction x with
  | nil => intro; rfl
  | cons c rest ih =>
    intro h
    cases rest with
    | nil =>
      have hc : isPySpace c = false := by simpa [lastNotWs] using h
      simp [rstripWs, hc]
    | cons d t =>
      have ihr := ih h
      rw [rstripWs, ihr]

theorem pyStrip_id {x : List Char} (hh : headNotWs x = true)
    (hl : lastNotWs x = true) : pyStrip x = x := by
  rw [pyStrip, dropWhile_id_of_head hh, rstripWs_id_of_last hl]

/-- Structure of any `clean_explanation` output: normalised whitespace, no
border whitespace. -/
theorem x0_props (y : List Char) :
    wsNormB (pyStrip (collWs y)) = true ∧
    headNotWs (pyStrip (collWs y)) = true ∧
    lastNotWs (pyStrip (collWs y)) = true := by
  refine ⟨?_, ?_, lastNotWs_rstrip _⟩
  · exact wsNormB_rstrip (wsNormB_dropWhile (collWs_norm y).1)
  · exact headNotWs_rstrip (headNotWs_dropWhile _)

/-- `clean_explanation` output contains no newline. -/
theorem x0_no_nl (y : List Char) : '\n' ∉ pyStrip (collWs y) := by
  intro hmem
  have := mem_ws_space (x0_props y).1 '\n' hmem (by decide)
  exact absurd this (by decide)

/-- The whitespace pipeline is the identity on any string with the
structure of a cleaning output. -/
theorem clean_pass2_id {x : List Char} (hw : wsNormB x = true)
    (hh : headNotWs x = true) (hl : lastNotWs x = true) (hnl : '\n' ∉ x) :
    pyStrip (collWs (collNl x)) = x := by
  rw [collNl_id x hnl, (collWs_id x hw).1, pyStrip_id hh hl]

/-- C3 (amended): each `clean_explanation` variant is idempotent on every
input whose cleaned output contains no occurrence of a removal pattern; in
general one pass can create a new marker (whitespace collapsing joins a
marker split across lines), so cleaning twice can remove more. -/
theorem c3_amended_conditional_idempotence :
    ∀ s : List Char,
      (cleanMarkersB (Baseline.clean_explanation s) →
        Baseline.clean_explanation (Baseline.clean_explanation s) =
          Baseline.clean_explanation s) ∧
      (cleanMarkersF (Fixed.clean_explanation s) →
        Fixed.clean_explanation (Fixed.clean_explanation s) =
          Fixed.clean_explanation s) := by
  intro s
  constructor
  · intro h
    obtain ⟨h1, h2, h3, h4, h5, h6, h7, h8, h9, h10⟩ := h
    have hprops := x0_props (collNl (reSub mPageLine [] (cleanCommonPre s)))
    have hc : cleanCommonPre (Baseline.clean_explanation s) =
        Baseline.clean_explanation s := by
      simp only [cleanCommonPre]
      rw [reSub_id h1, reSub_id h2, reSub_id h3, reSub_id h4, reSub_id h5,
        reSub_id h6, reSub_id h7, reSub_id h8, reSub_id h9]
    show pyStrip (collWs (collNl (reSub mPageLine []
      (cleanCommonPre (Baseline.clean_explanation s))))) =
      Baseline.clean_explanation s
    rw [hc, reSub_id h10]
    exact clean_pass2_id hprops.1 hprops.2.1 hprops.2.2
      (x0_no_nl (collNl (reSub mPageLine [] (cleanCommonPre s))))
  · intro h
    obtain ⟨⟨h1, h2, h3, h4, h5, h6, h7, h8, h9, h10⟩, h11⟩ := h
    have hprops := x0_props (collNl (reSub mPageLine []
      (reSub mWbNofM [] (cleanCommonPre s))))
    have hc : cleanCommonPre (Fixed.clean_explanation s) =
        Fixed.clean_explanation s := by
      simp only [cleanCommonPre]
      rw [reSub_id h1, reSub_id h2, reSub_id h3, reSub_id h4, reSub_id h5,
        reSub_id h6, reSub_id h7, reSub_id h8, reSub_id h9]
    show pyStrip (collWs (collNl (reSub mPageLine [] (reSub mWbNofM []
      (cleanCommonPre (Fixed.clean_explanation s)))))) =
      Fixed.clean_explanation s
    rw [hc, reSub_id h11, reSub_id h10]
    exact clean_pass2_id hprops.1 hprops.2.1 hprops.2.2
      (x0_no_nl (collNl (reSub mPageLine [] (reSub mWbNofM []
        (cleanCommonPre s)))))

/-- C3 counterexample: whitespace collapsing joins `Final` and `Answer:#`
across a newline, so the second pass removes text the first one kept —
`clean_explanation` is not idempotent, in either variant. -/
theorem c3_counterexample_not_idempotent :
    Baseline.clean_explanation
        (Baseline.clean_explanation (("Final\nAnswer:#x").data)) ≠
      Baseline.clean_explanation (("Final\nAnswer:#x").data) ∧
    Fixed.clean_explanation
        (Fixed.clean_explanation (("Final\nAnswer:#x").data)) ≠
      Fixed.clean_explanation (("Final\nAnswer:#x").data) := by
  decide

/-- Matchers with a nonempty leading literal fail past the end. -/
theorem mQm_beyond {lit t : List Char} (hlit : lit ≠ []) {i : Nat}
    (h : t.length ≤ i) : mQm lit t i = none := by
  unfold mQm
  rw [List.drop_eq_nil_of_le h]
  cases lit with
  | nil => exact absurd rfl hlit
  | cons c0 cs => rfl

theorem mEol_beyond {lit t : List Char} (hlit : lit ≠ []) {i : Nat}
    (h : t.length ≤ i) : mEol lit t i = none := by
  unfold mEol
  rw [List.drop_eq_nil_of_le h]
  cases lit with
  | nil => exact absurd rfl hlit
  | cons c0 cs => rfl

theorem mLit_beyond {lit t : List Char} (hlit : lit ≠ []) {i : Nat}
    (h : t.length ≤ i) : mLit lit t i = none := by
  unfold mLit
  rw [List.drop_eq_nil_of_le h]
  cases lit with
  | nil => exact absurd rfl hlit
  | cons c0 cs => rfl

theorem mPageLine_beyond {t : List Char} {i : Nat} (h : t.length ≤ i) :
    mPageLine t i = none := by
  unfold mPageLine
  rw [List.drop_eq_nil_of_le h]
  split
  · simp
  · rfl

theorem mWbNofM_beyond {t : List Char} {i : Nat} (h : t.length ≤ i) :
    mWbNofM t i = none := by
  unfold mWbNofM
  rw [List.drop_eq_nil_of_le h]
  split <;> simp

/-- Lift a decidable bounded check to a `noHit` fact. -/
theorem noHit_check {m : Matcher Nat} {t : List Char}
    (hbeyond : ∀ i, t.length ≤ i → m t i = none)
    (hb : (List.range (t.length + 1)).all (fun i => (m t i).isNone) = true) :
    noHit m t := by
  intro i
  by_cases hlt : i < t.length + 1
  · have := List.all_eq_true.mp hb i (List.mem_range.mpr hlt)
    simpa [Option.isNone_iff_eq_none] using this
  · exact hbeyond i (by omega)

/-- C3 witness: idempotence on a concrete marker-free input. -/
theorem c3_amended_conditional_idempotence_witness :
    Baseline.clean_explanation
        (Baseline.clean_explanation (("plain text").data)) =
      Baseline.clean_explanation (("plain text").data) ∧
    Fixed.clean_explanation (Fixed.clean_explanation (("plain text").data)) =
      Fixed.clean_explanation (("plain text").data) := by
  have h := c3_amended_conditional_idempotence (("plain text").data)
  have hmB : cleanMarkersB (Baseline.clean_explanation (("plain text").data)) :=
    ⟨noHit_check (fun i hi => mQm_beyond (by decide) hi) (by decide),
     noHit_check (fun i hi => mQm_beyond (by decide) hi) (by decide),
     noHit_check (fun i hi => mEol_beyond (by decide) hi) (by decide),
     noHit_check (fun i hi => mEol_beyond (by decide) hi) (by decide),
     noHit_check (fun i hi => mEol_beyond (by decide) hi) (by decide),
     noHit_check (fun i hi => mEol_beyond (by decide) hi) (by decide),
     noHit_check (fun i hi => mLit_beyond (by decide) hi) (by decide),
     noHit_check (fun i hi => mLit_beyond (by decide) hi) (by decide),
     noHit_check (fun i hi => mLit_beyond (by decide) hi) (by decide),
     noHit_check (fun i hi => mPageLine_beyond hi) (by decide)⟩
  have hmF : cleanMarkersF (Fixed.clean_explanation (("plain text").data)) :=
    ⟨⟨noHit_check (fun i hi => mQm_beyond (by decide) hi) (by decide),
      noHit_check (fun i hi => mQm_beyond (by decide) hi) (by decide),
      noHit_check (fun i hi => mEol_beyond (by decide) hi) (by decide),
      noHit_check (fun i hi => mEol_beyond (by decide) hi) (by decide),
      noHit_check (fun i hi => mEol_beyond (by decide) hi) (by decide),
      noHit_check (fun i hi => mEol_beyond (by decide) hi) (by decide),
      noHit_check (fun i hi => mLit_beyond (by decide) hi) (by decide),
      noHit_check (fun i hi => mLit_beyond (by decide) hi) (by decide),
      noHit_check (fun i hi => mLit_beyond (by decide) hi) (by decide),
      noHit_check (fun i hi => mPageLine_beyond hi) (by decide)⟩,
     noHit_check (fun i hi => mWbNofM_beyond hi) (by decide)⟩
  exact ⟨h.1 hmB, h.2 hmF⟩

end CmmcSim
